import Mathlib

/-!
Verification of the `github_create_pr` management command
(`backend/apps/github/management/commands/github_create_pr.py`).

The command is a linear pipeline: parse the repository identifier, obtain an
authenticated client, resolve the repository and the base branch, parse the
file mapping and the label/assignee/reviewer lists, then either show a dry
run or upload files, create the pull request and enrich it.

Strings are modelled as lists of characters (`Str`), which matches Python
string operations (`split`, `strip`, `in`, splitting at the first
separator) one to one.  The remote API and the local file system are
modelled as an environment of response functions; a run of the command is a
pure function from the environment and the parsed options to a final state
(the list of remote calls issued, the stdout lines, the stderr lines with
severity) and an exit code.
-/

set_option maxRecDepth 10000

deriving instance DecidableEq for Except

/-- Python strings, modelled as lists of characters. -/
abbrev Str := List Char

/-- The characters `str.strip()` removes (the ASCII whitespace set). -/
def pyWhitespace (c : Char) : Bool :=
  c = ' ' || c = '\t' || c = '\n' || c = '\r' || c = '\x0b' || c = '\x0c'

/-- Python `s.strip()`: drop leading and trailing whitespace. -/
def pyStrip (s : Str) : Str :=
  ((s.dropWhile pyWhitespace).reverse.dropWhile pyWhitespace).reverse

/-- Python `s.split(sep)` for a one-character separator: splits at every
occurrence, and `"".split(sep) = [""]`. -/
def splitOnChar (sep : Char) : Str → List Str
  | [] => [[]]
  | c :: cs =>
    match splitOnChar sep cs with
    | [] => [[]]
    | h :: t => if c = sep then [] :: h :: t else (c :: h) :: t

/-- Python `s.split(sep, 1)` restricted to the case where it actually
splits: returns the part before the first occurrence of `sep` and the part
after it, or `none` when `sep` does not occur (Python `sep not in s`). -/
def splitFirst (sep : Char) : Str → Option (Str × Str)
  | [] => none
  | c :: cs =>
    if c = sep then some ([], cs)
    else (splitFirst sep cs).map (fun p => (c :: p.1, p.2))

/-- Python `needle in hay` for strings: contiguous-substring test. -/
def strContains (needle : Str) : Str → Bool
  | [] => needle.isEmpty
  | c :: cs => needle.isPrefixOf (c :: cs) || strContains needle cs

/-- A Python dict from local paths to remote paths, with insertion order. -/
abbrev Dict := List (Str × Str)

/-- Python `d[k] = v` on an insertion-ordered dict: if the key is present
its value is updated in place, otherwise the pair is appended. -/
def dictInsert (d : Dict) (k v : Str) : Dict :=
  if k ∈ d.map Prod.fst then
    d.map (fun p => if p.1 = k then (p.1, v) else p)
  else d ++ [(k, v)]

/-- Python `d[k]` / `k in d`: the value stored for key `k`, if any. -/
def dictFind : Dict → Str → Option Str
  | [], _ => none
  | p :: rest, k => if p.1 = k then some p.2 else dictFind rest k

/-- Error message for a file specification without a colon. -/
def invalidSpecMsg (p : Str) : Str :=
  "Invalid file specification: ".data ++ p ++ ". Expected format: local_path:remote_path".data

/-- Error message for a file specification with an empty local side. -/
def emptyLocalMsg (p : Str) : Str :=
  "Empty local path in specification: ".data ++ p

/-- Error message for a file specification with an empty remote side. -/
def emptyRemoteMsg (p : Str) : Str :=
  "Empty remote path in specification: ".data ++ p

/-- The loop body of `Command._parse_files`: process each comma-separated
specification, split it at the first colon, strip both sides, reject a
missing colon or an empty side, and assign into the dict. -/
def parseFilesAux : Dict → List Str → Except Str Dict
  | d, [] => .ok d
  | d, spec :: rest =>
    match splitFirst ':' spec with
    | none => .error (invalidSpecMsg spec)
    | some (l, r) =>
      let lp := pyStrip l
      let rp := pyStrip r
      if lp = [] then .error (emptyLocalMsg spec)
      else if rp = [] then .error (emptyRemoteMsg spec)
      else parseFilesAux (dictInsert d lp rp) rest

/-- `Command._parse_files`: `None` or the empty string yield the empty
dict; otherwise the comma-separated specifications are processed in order.
An error models `sys.exit(1)` after the corresponding stderr message. -/
def parse_files : Option Str → Except Str Dict
  | none => .ok []
  | some s => if s = [] then .ok [] else parseFilesAux [] (splitOnChar ',' s)

/-- `Command._parse_list`: `None` or the empty string yield `[]`;
otherwise split on commas, strip each item and drop the empty ones. -/
def parse_list : Option Str → List Str
  | none => []
  | some s =>
    if s = [] then []
    else ((splitOnChar ',' s).filter (fun i => !(pyStrip i).isEmpty)).map pyStrip

/-- A well-formed file specification in the sense of the specification
document: it contains a colon, and both sides are non-empty after
stripping. -/
def wfPair (p : Str) : Bool :=
  match splitFirst ':' p with
  | none => false
  | some (l, r) => decide (pyStrip l ≠ []) && decide (pyStrip r ≠ [])

/-- The (local, remote) pair a well-formed specification denotes. -/
def pairOf (p : Str) : Str × Str :=
  match splitFirst ':' p with
  | none => ([], [])
  | some (l, r) => (pyStrip l, pyStrip r)

/-- The pairs denoted by a whole file-mapping string. -/
def pairsOf (s : Str) : List (Str × Str) :=
  (splitOnChar ',' s).map pairOf

/-- The predicate of claim C1: the identifier splits into exactly two
non-empty segments on the first slash. -/
def splitsTwoNonEmpty (s : Str) : Bool :=
  match splitFirst '/' s with
  | none => false
  | some (a, b) => decide (a ≠ []) && decide (b ≠ [])

/-- Folding dict assignment over a pair list; this is what the parse loop
does with the pairs it accepts. -/
def insertAll (d : Dict) (prs : List (Str × Str)) : Dict :=
  prs.foldl (fun d pr => dictInsert d pr.1 pr.2) d

/-- Severity of a stderr line (`self.style.ERROR` vs `self.style.WARNING`). -/
inductive Sev where
  | error
  | warning
deriving DecidableEq

/-- A remote API call issued by the command, with its arguments. -/
inductive Call where
  | getRepo (name : Str)
  | getBranch (name : Str)
  | createRef (ref : Str) (sha : Str)
  | getContents (path : Str) (ref : Str)
  | updateFile (path msg content sha branch : Str)
  | createFile (path msg content branch : Str)
  | createPull (title body base head : Str) (draft : Bool)
  | addLabels (labels : List Str)
  | addAssignees (assignees : List Str)
  | addReviewers (reviewers : List Str)
deriving DecidableEq

/-- What `stat` reports for an existing path: whether it is a regular file,
and its size in bytes. -/
structure FStat where
  isFile : Bool
  size : Nat
deriving DecidableEq

/-- Responses of the external collaborators: the GitHub API client (each
method either returns a value or raises `GithubException`, modelled as the
`str(e)` text), plus the local file system.  `auth = false` models
`BadCredentialsException` from the token issuer. -/
structure Env where
  auth : Bool
  getRepo : Str → Except Str Unit
  getBranch : Str → Except Str Str
  createRef : Str → Str → Except Str Unit
  getContents : Str → Str → Except Str Str
  updateFile : Str → Str → Str → Str → Except Str Unit
  createFile : Str → Str → Str → Except Str Unit
  createPull : Str → Str → Str → Str → Bool → Except Str Str
  addLabels : List Str → Except Str Unit
  addAssignees : List Str → Except Str Unit
  addReviewers : List Str → Except Str Unit
  cwd : Str
  fs : Str → Option FStat
  readFile : Str → Str

/-- The parsed command-line options (argparse result). -/
structure Options where
  repository : Str
  title : Str
  body : Str
  base_branch : Str
  head_branch : Str
  files : Option Str
  labels : Option Str
  assignees : Option Str
  reviewers : Option Str
  draft : Bool
  dry_run : Bool

/-- Observable state of a run: remote calls issued, stdout lines, stderr
lines with severity. -/
structure St where
  calls : List Call
  out : List Str
  err : List (Sev × Str)
deriving DecidableEq

/-- The initial state. -/
def emptySt : St := ⟨[], [], []⟩

/-- Record a remote call. -/
def addCall (s : St) (c : Call) : St := { s with calls := s.calls ++ [c] }

/-- Write a stdout line. -/
def addOut (s : St) (m : Str) : St := { s with out := s.out ++ [m] }

/-- Write a stderr line with a severity. -/
def addErr (s : St) (v : Sev) (m : Str) : St := { s with err := s.err ++ [(v, m)] }

/-- How an aborting exception left the pipeline: a `GithubException` that
was re-raised (caught by the top-level `except Exception`), or a
`SystemExit` from `sys.exit(1)` (not caught by `except Exception`). -/
inductive AbortKind where
  | ghExc (e : Str)
  | sysExit
deriving DecidableEq

/-- Python `path.is_absolute()` on POSIX. -/
def isAbsolutePath (p : Str) : Bool :=
  match p with
  | c :: _ => c = '/'
  | [] => false

/-- `Path.cwd() / path` when the path is relative. -/
def resolvePath (env : Env) (p : Str) : Str :=
  if isAbsolutePath p then p else env.cwd ++ '/' :: p

/-- The hard-coded size ceiling of `_validate_file_path` (100 MiB). -/
def maxFileSize : Nat := 100 * 1024 * 1024

/-- Stderr message for a missing local file. -/
def fileNotFoundMsg (p : Str) : Str := "File not found: ".data ++ p

/-- Stderr message for a local path that is not a regular file. -/
def notAFileMsg (p : Str) : Str := "Path is not a file: ".data ++ p

/-- Stderr message for an oversized local file. -/
def tooLargeMsg (p : Str) (n : Nat) : Str :=
  "File too large: ".data ++ p ++ " (".data ++ (Nat.repr n).data ++
    " bytes). Maximum size is ".data ++ (Nat.repr maxFileSize).data ++ " bytes.".data

/-- `Command._validate_file_path`: resolve a relative path against the
current working directory, then require that it exists, is a regular file,
and is at most 100 MiB.  An error models the stderr message written right
before `sys.exit(1)`. -/
def validate_file_path (env : Env) (p : Str) : Except Str Str :=
  let path := resolvePath env p
  match env.fs path with
  | none => .error (fileNotFoundMsg p)
  | some st =>
    if st.isFile = false then .error (notAFileMsg p)
    else if st.size > maxFileSize then .error (tooLargeMsg p st.size)
    else .ok path

/-- Python `str(b)` for a bool. -/
def boolStr (b : Bool) : Str := if b then "True".data else "False".data

/-- Python `", ".join(items)`. -/
def joinComma : List Str → Str
  | [] => []
  | [x] => x
  | x :: xs => x ++ ", ".data ++ joinComma xs

/-- The per-file stdout line of `_show_dry_run`: size on success, the
`(FILE NOT FOUND)` marker when `_validate_file_path` raised `SystemExit`
for any reason. -/
def dryRunFileLine (env : Env) (lp rp : Str) : Str :=
  match validate_file_path env lp with
  | .ok path =>
    let sz := match env.fs path with
      | some st => st.size
      | none => 0
    "  ".data ++ lp ++ " -> ".data ++ rp ++ " (".data ++ (Nat.repr sz).data ++ " bytes)".data
  | .error _ => "  ".data ++ lp ++ " -> ".data ++ rp ++ " (FILE NOT FOUND)".data

/-- The `Files to upload:` loop of `_show_dry_run`.  A failing validation
still writes its stderr message (it runs before the caught `SystemExit`). -/
def dryRunFiles (env : Env) : List (Str × Str) → St → St
  | [], s => s
  | (lp, rp) :: rest, s =>
    match validate_file_path env lp with
    | .ok _ => dryRunFiles env rest (addOut s (dryRunFileLine env lp rp))
    | .error m => dryRunFiles env rest (addOut (addErr s .error m) (dryRunFileLine env lp rp))

/-- `Command._show_dry_run`: echo the resolved parameters, the per-file
existence check and the resolved lists; no remote call is made. -/
def show_dry_run (env : Env) (o : Options) (files : Dict)
    (labels assignees reviewers : List Str) (s : St) : St :=
  let s := addOut s "DRY RUN - No changes will be made".data
  let s := addOut s ("Repository: ".data ++ o.repository)
  let s := addOut s ("Title: ".data ++ o.title)
  let s := addOut s ("Body: ".data ++ o.body)
  let s := addOut s ("Base branch: ".data ++ o.base_branch)
  let s := addOut s ("Head branch: ".data ++ o.head_branch)
  let s := addOut s ("Draft: ".data ++ boolStr o.draft)
  let s := if files ≠ [] then dryRunFiles env files (addOut s "Files to upload:".data) else s
  let s := if labels ≠ [] then addOut s ("Labels: ".data ++ joinComma labels) else s
  let s := if assignees ≠ [] then addOut s ("Assignees: ".data ++ joinComma assignees) else s
  let s := if reviewers ≠ [] then addOut s ("Reviewers: ".data ++ joinComma reviewers) else s
  s

/-- The fixed branch name used by `_upload_files` for the branch tip. -/
def mainBranch : Str := "main".data

/-- `refs/heads/<head_branch>`. -/
def refsHeads (h : Str) : Str := "refs/heads/".data ++ h

/-- The idempotency carve-out `"Reference already exists" in str(e)`. -/
def refAlreadyExists (e : Str) : Bool :=
  strContains ("Reference already exists".data) e

/-- Commit message for updating an existing remote file. -/
def updateCommitMsg (rp : Str) : Str := "Update ".data ++ rp

/-- Commit message for creating a remote file. -/
def createCommitMsg (rp : Str) : Str := "Create ".data ++ rp

/-- Stderr message for a failed single upload. -/
def failedUploadOneMsg (lp rp e : Str) : Str :=
  "Failed to upload ".data ++ lp ++ " -> ".data ++ rp ++ ": ".data ++ e

/-- Stderr message of the outer handler of `_upload_files`. -/
def failedUploadFilesMsg (e : Str) : Str := "Failed to upload files: ".data ++ e

/-- Stderr message of the top-level `except Exception` handler. -/
def unexpectedErrMsg (e : Str) : Str := "Unexpected error: ".data ++ e

/-- The per-file loop of `_upload_files`: validate and read the local
file, probe the remote path on the head branch, then update (falling back
to create when the update raises) or create.  A remote failure writes the
per-file message, then the outer handler's message, and propagates as a
`GithubException`; a validation failure propagates as `SystemExit`. -/
def uploadLoop (env : Env) (head : Str) : List (Str × Str) → St → Except (St × AbortKind) St
  | [], s => .ok s
  | (lp, rp) :: rest, s =>
    match validate_file_path env lp with
    | .error m => .error (addErr s .error m, .sysExit)
    | .ok path =>
      let content := env.readFile path
      let s := addCall s (.getContents rp head)
      match env.getContents rp head with
      | .ok fsha =>
        let s := addCall s (.updateFile rp (updateCommitMsg rp) content fsha head)
        match env.updateFile rp content fsha head with
        | .ok _ => uploadLoop env head rest s
        | .error _ =>
          let s := addCall s (.createFile rp (createCommitMsg rp) content head)
          match env.createFile rp content head with
          | .ok _ => uploadLoop env head rest s
          | .error e2 =>
            .error (addErr (addErr s .error (failedUploadOneMsg lp rp e2)) .error
              (failedUploadFilesMsg e2), .ghExc e2)
      | .error _ =>
        let s := addCall s (.createFile rp (createCommitMsg rp) content head)
        match env.createFile rp content head with
        | .ok _ => uploadLoop env head rest s
        | .error e2 =>
          .error (addErr (addErr s .error (failedUploadOneMsg lp rp e2)) .error
            (failedUploadFilesMsg e2), .ghExc e2)

/-- `Command._upload_files`: read the tip commit SHA of the hard-coded
branch `"main"`, create `refs/heads/<head>` there (treating a
`Reference already exists` error as success), then run the per-file loop. -/
def upload_files (env : Env) (head : Str) (files : Dict) (s : St) :
    Except (St × AbortKind) St :=
  let s1 := addCall s (.getBranch mainBranch)
  match env.getBranch mainBranch with
  | .error e => .error (addErr s1 .error (failedUploadFilesMsg e), .ghExc e)
  | .ok base_sha =>
    let s2 := addCall s1 (.createRef (refsHeads head) base_sha)
    match env.createRef (refsHeads head) base_sha with
    | .ok _ => uploadLoop env head files s2
    | .error e =>
      if refAlreadyExists e then uploadLoop env head files s2
      else .error (addErr s2 .error (failedUploadFilesMsg e), .ghExc e)

/-- Stderr message for a malformed repository identifier. -/
def invalidRepoMsg (r : Str) : Str :=
  "Invalid repository format: ".data ++ r ++ ". Expected format: owner/repo".data

/-- Stderr message for `BadCredentialsException`. -/
def authFailedMsg : Str :=
  "GitHub authentication failed. Please check your GitHub App configuration.".data

/-- Stderr message for a failed repository lookup. -/
def failedAccessRepoMsg (r e : Str) : Str :=
  "Failed to access repository ".data ++ r ++ ": ".data ++ e

/-- Stderr message for a missing base branch. -/
def baseBranchNotFoundMsg (b e : Str) : Str :=
  "Base branch ".data ++ b ++ " not found: ".data ++ e

/-- Stderr message for a failed pull-request creation. -/
def failedCreatePullMsg (e : Str) : Str :=
  "Failed to create Pull Request: ".data ++ e

/-- Warning for a failed label addition. -/
def failedAddLabelsMsg (e : Str) : Str := "Failed to add labels: ".data ++ e

/-- Warning for a failed assignee addition. -/
def failedAddAssigneesMsg (e : Str) : Str := "Failed to add assignees: ".data ++ e

/-- Warning for a failed reviewer addition. -/
def failedAddReviewersMsg (e : Str) : Str := "Failed to add reviewers: ".data ++ e

/-- Stdout success line. -/
def successMsg (url : Str) : Str :=
  "Successfully created Pull Request: ".data ++ url

/-- `Command._add_labels`: one API call; a `GithubException` is caught and
reported as a warning, never propagated. -/
def add_labels (env : Env) (ls : List Str) (s : St) : St :=
  let s1 := addCall s (.addLabels ls)
  match env.addLabels ls with
  | .ok _ => s1
  | .error e => addErr s1 .warning (failedAddLabelsMsg e)

/-- `Command._add_assignees`: same soft-failure policy as labels. -/
def add_assignees (env : Env) (as₁ : List Str) (s : St) : St :=
  let s1 := addCall s (.addAssignees as₁)
  match env.addAssignees as₁ with
  | .ok _ => s1
  | .error e => addErr s1 .warning (failedAddAssigneesMsg e)

/-- `Command._add_reviewers`: same soft-failure policy as labels. -/
def add_reviewers (env : Env) (rs : List Str) (s : St) : St :=
  let s1 := addCall s (.addReviewers rs)
  match env.addReviewers rs with
  | .ok _ => s1
  | .error e => addErr s1 .warning (failedAddReviewersMsg e)

/-- The tail of `Command.handle` after file upload: `_create_pull_request`
(whose `GithubException` is re-raised and lands in the top-level
`except Exception` handler), then the three optional enrichment steps, then
the success line. -/
def pull_request_stage (env : Env) (o : Options)
    (labels assignees reviewers : List Str) (s3 : St) : St × Nat :=
  let s4 := addCall s3 (.createPull o.title o.body o.base_branch o.head_branch o.draft)
  match env.createPull o.title o.body o.base_branch o.head_branch o.draft with
  | .error e =>
    (addErr (addErr s4 .error (failedCreatePullMsg e)) .error (unexpectedErrMsg e), 1)
  | .ok url =>
    let s5 := if labels ≠ [] then add_labels env labels s4 else s4
    let s6 := if assignees ≠ [] then add_assignees env assignees s5 else s5
    let s7 := if reviewers ≠ [] then add_reviewers env reviewers s6 else s6
    (addOut s7 (successMsg url), 0)

/-- The non-dry-run tail of `Command.handle`: optionally upload files
(`SystemExit` escapes silently, a re-raised `GithubException` is reported
by the top-level handler), then the pull-request stage. -/
def upload_and_pr (env : Env) (o : Options) (files : Dict)
    (labels assignees reviewers : List Str) (s2 : St) : St × Nat :=
  match (if files ≠ [] then upload_files env o.head_branch files s2 else .ok s2) with
  | .error (sE, .sysExit) => (sE, 1)
  | .error (sE, .ghExc e) => (addErr sE .error (unexpectedErrMsg e), 1)
  | .ok s3 => pull_request_stage env o labels assignees reviewers s3

/-- `Command.handle`: the whole pipeline, returning the final observable
state and the process exit code. -/
def handle (env : Env) (o : Options) : St × Nat :=
  if o.repository.contains '/' = false then
    (addErr emptySt .error (invalidRepoMsg o.repository), 1)
  else if env.auth = false then
    (addErr emptySt .error authFailedMsg, 1)
  else
    let s1 := addCall emptySt (.getRepo o.repository)
    match env.getRepo o.repository with
    | .error e => (addErr s1 .error (failedAccessRepoMsg o.repository e), 1)
    | .ok _ =>
      let s2 := addCall s1 (.getBranch o.base_branch)
      match env.getBranch o.base_branch with
      | .error e => (addErr s2 .error (baseBranchNotFoundMsg o.base_branch e), 1)
      | .ok _ =>
        match parse_files o.files with
        | .error m => (addErr s2 .error m, 1)
        | .ok files =>
          let labels := parse_list o.labels
          let assignees := parse_list o.assignees
          let reviewers := parse_list o.reviewers
          if o.dry_run then
            (show_dry_run env o files labels assignees reviewers s2, 0)
          else
            upload_and_pr env o files labels assignees reviewers s2

/-! ## Trace-shape lemmas -/

/-- The state carried by an upload result, whether it aborted or not. -/
def resultSt : Except (St × AbortKind) St → St
  | .ok s => s
  | .error (s, _) => s

/-- Calls that the per-file upload loop can issue. -/
def isLoopCall : Call → Bool
  | .getContents _ _ => true
  | .updateFile _ _ _ _ _ => true
  | .createFile _ _ _ _ => true
  | _ => false

/-- Calls that mutate the remote repository. -/
def isMutatingCall : Call → Bool
  | .getRepo _ => false
  | .getBranch _ => false
  | .getContents _ _ => false
  | _ => true

/-- The three post-creation enrichment calls. -/
def isEnrichCall : Call → Bool
  | .addLabels _ => true
  | .addAssignees _ => true
  | .addReviewers _ => true
  | _ => false

/-! ## Concrete environments and option sets used to evaluate the model -/

/-- An environment in which every remote call succeeds, the remote file
probe reports the file as absent, and the local file system has a regular
file `/w/f1`, a directory `/w/d` and an oversized file `/w/big`. -/
def envOk : Env where
  auth := true
  getRepo := fun _ => .ok ()
  getBranch := fun _ => .ok ("abc123".data)
  createRef := fun _ _ => .ok ()
  getContents := fun _ _ => .error ("404 not found".data)
  updateFile := fun _ _ _ _ => .ok ()
  createFile := fun _ _ _ => .ok ()
  createPull := fun _ _ _ _ _ => .ok ("http://pr/1".data)
  addLabels := fun _ => .ok ()
  addAssignees := fun _ => .ok ()
  addReviewers := fun _ => .ok ()
  cwd := "/w".data
  fs := fun p =>
    if p = "/w/f1".data then some ⟨true, 5⟩
    else if p = "/w/d".data then some ⟨false, 0⟩
    else if p = "/w/big".data then some ⟨true, 104857601⟩
    else none
  readFile := fun _ => "hello".data

/-- Like `envOk` but branch-reference creation reports the reference as
already existing. -/
def envRefExists : Env :=
  { envOk with createRef := fun _ _ => .error ("422 Reference already exists".data) }

/-- Like `envOk` but branch-reference creation fails with another error. -/
def envRefBoom : Env :=
  { envOk with createRef := fun _ _ => .error ("500 boom".data) }

/-- Like `envOk` but label addition fails. -/
def envLabelFail : Env :=
  { envOk with addLabels := fun _ => .error ("404 label not found".data) }

/-- Like `envOk` but pull-request creation fails. -/
def envPrFail : Env :=
  { envOk with createPull := fun _ _ _ _ _ => .error ("422 pull request exists".data) }

/-- A plain valid invocation without files or enrichment. -/
def optsPlain : Options where
  repository := "OWASP/Nest".data
  title := "Test PR".data
  body := "Test description".data
  base_branch := "main".data
  head_branch := "feature/test".data
  files := none
  labels := none
  assignees := none
  reviewers := none
  draft := false
  dry_run := false

/-- A valid invocation with a file mapping and a non-default base branch. -/
def optsFiles : Options :=
  { optsPlain with files := some ("f1:test.txt".data), base_branch := "develop".data }

/-- A repository identifier with an empty second segment. -/
def optsOwnerSlash : Options := { optsPlain with repository := "owner/".data }

/-- A repository identifier without a slash. -/
def optsNoSlash : Options := { optsPlain with repository := "invalid-repo".data }

/-- A dry-run invocation with files and labels. -/
def optsDry : Options :=
  { optsFiles with dry_run := true, labels := some ("bug,doc".data) }

/-- A valid invocation with labels only. -/
def optsLabels : Options := { optsPlain with labels := some ("bug".data) }

/-- An invocation whose file mapping has a pair without a colon. -/
def optsBadFiles : Options := { optsPlain with files := some ("noColon".data) }

/-! ## Lemmas about the dict and parser -/

theorem dictInsert_map_fst_of_mem (d : Dict) (k v : Str)
    (h : k ∈ d.map Prod.fst) :
    (dictInsert d k v).map Prod.fst = d.map Prod.fst := by
  unfold dictInsert
  rw [if_pos h, List.map_map]
  apply List.map_congr_left
  intro p _
  by_cases hp : p.1 = k <;> simp [hp]

theorem dictInsert_eq_append_of_not_mem (d : Dict) (k v : Str)
    (h : k ∉ d.map Prod.fst) :
    dictInsert d k v = d ++ [(k, v)] := by
  unfold dictInsert
  rw [if_neg h]

theorem nodup_map_fst_dictInsert (d : Dict) (k v : Str)
    (h : (d.map Prod.fst).Nodup) :
    ((dictInsert d k v).map Prod.fst).Nodup := by
  by_cases hm : k ∈ d.map Prod.fst
  · rw [dictInsert_map_fst_of_mem d k v hm]; exact h
  · rw [dictInsert_eq_append_of_not_mem d k v hm, List.map_append]
    have hdisj : (d.map Prod.fst).Disjoint ([(k, v)].map Prod.fst) := by
      intro a ha hb
      simp only [List.map_cons, List.map_nil, List.mem_singleton] at hb
      subst hb
      exact hm ha
    exact List.nodup_append.mpr ⟨h, by simp, hdisj⟩

theorem dictFind_map_update_self (d : Dict) (k v : Str)
    (h : k ∈ d.map Prod.fst) :
    dictFind (d.map (fun p => if p.1 = k then (p.1, v) else p)) k = some v := by
  induction d with
  | nil => simp at h
  | cons p rest ih =>
    by_cases hp : p.1 = k
    · simp [dictFind, hp]
    · have hk : k ∈ rest.map Prod.fst := by
        rcases List.mem_map.mp h with ⟨q, hq, he⟩
        rcases List.mem_cons.mp hq with hq | hq
        · exact absurd (hq ▸ he) hp
        · exact List.mem_map.mpr ⟨q, hq, he⟩
      simp [dictFind, hp, ih hk]

theorem dictFind_map_update_other (d : Dict) (k v q : Str) (h : q ≠ k) :
    dictFind (d.map (fun p => if p.1 = k then (p.1, v) else p)) q =
      dictFind d q := by
  induction d with
  | nil => simp
  | cons p rest ih =>
    rw [List.map_cons]
    by_cases hp : p.1 = k
    · rw [if_pos hp]
      have hpq : ¬ p.1 = q := fun hc => h (hc ▸ hp)
      simp only [dictFind, hpq, if_false, reduceIte]
      exact ih
    · rw [if_neg hp]
      by_cases hq : p.1 = q
      · simp only [dictFind, hq, reduceIte]
      · simp only [dictFind, hq, if_false, reduceIte]
        exact ih

theorem dictFind_eq_none_of_not_mem (d : Dict) (k : Str)
    (h : k ∉ d.map Prod.fst) :
    dictFind d k = none := by
  induction d with
  | nil => rfl
  | cons p rest ih =>
    have hp : p.1 ≠ k := by
      intro hc
      exact h (List.mem_map.mpr ⟨p, by simp, hc⟩)
    have hr : k ∉ rest.map Prod.fst := by
      intro hc
      exact h (by simp [hc])
    simp [dictFind, hp, ih hr]

theorem dictFind_append (d₁ d₂ : Dict) (k : Str) :
    dictFind (d₁ ++ d₂) k =
      match dictFind d₁ k with
      | some v => some v
      | none => dictFind d₂ k := by
  induction d₁ with
  | nil => simp [dictFind]
  | cons p rest ih =>
    by_cases hp : p.1 = k
    · simp [dictFind, hp]
    · simp [dictFind, hp, ih]

theorem dictFind_dictInsert (d : Dict) (k v q : Str) :
    dictFind (dictInsert d k v) q =
      if q = k then some v else dictFind d q := by
  by_cases hm : k ∈ d.map Prod.fst
  · unfold dictInsert
    rw [if_pos hm]
    by_cases hq : q = k
    · subst hq
      rw [dictFind_map_update_self d q v hm, if_pos rfl]
    · rw [dictFind_map_update_other d k v q hq, if_neg hq]
  · rw [dictInsert_eq_append_of_not_mem d k v hm, dictFind_append]
    by_cases hq : q = k
    · subst hq
      rw [dictFind_eq_none_of_not_mem d q hm]
      simp [dictFind]
    · have hqk : ¬ k = q := fun hc => hq hc.symm
      cases h : dictFind d q
      · simp [dictFind, hqk, hq]
      · simp [hq]

theorem insertAll_nil (d : Dict) : insertAll d [] = d := rfl

theorem insertAll_cons (d : Dict) (pr : Str × Str) (rest : List (Str × Str)) :
    insertAll d (pr :: rest) = insertAll (dictInsert d pr.1 pr.2) rest := rfl

theorem nodup_map_fst_insertAll (prs : List (Str × Str)) :
    ∀ d : Dict, (d.map Prod.fst).Nodup → ((insertAll d prs).map Prod.fst).Nodup := by
  induction prs with
  | nil => intro d h; exact h
  | cons pr rest ih =>
    intro d h
    rw [insertAll_cons]
    exact ih _ (nodup_map_fst_dictInsert d pr.1 pr.2 h)

theorem dictFind_insertAll (prs : List (Str × Str)) :
    ∀ (d : Dict) (k : Str),
      dictFind (insertAll d prs) k =
        match dictFind prs.reverse k with
        | some v => some v
        | none => dictFind d k := by
  induction prs with
  | nil => intro d k; rfl
  | cons pr rest ih =>
    intro d k
    rw [insertAll_cons, ih, List.reverse_cons, dictFind_append]
    cases h : dictFind rest.reverse k with
    | some v => simp
    | none =>
      by_cases hk : pr.1 = k
      · have hk' : k = pr.1 := hk.symm
        have h1 : dictFind [pr] k = some pr.2 := by
          simp only [dictFind]
          rw [if_pos hk]
        rw [h1, dictFind_dictInsert, if_pos hk']
      · have hk' : ¬ k = pr.1 := fun hc => hk hc.symm
        have h1 : dictFind [pr] k = none := by
          simp only [dictFind]
          rw [if_neg hk]
        rw [h1, dictFind_dictInsert, if_neg hk']

theorem toFinset_map_fst_dictInsert (d : Dict) (k v : Str) :
    ((dictInsert d k v).map Prod.fst).toFinset =
      insert k (d.map Prod.fst).toFinset := by
  by_cases hm : k ∈ d.map Prod.fst
  · rw [dictInsert_map_fst_of_mem d k v hm]
    have : k ∈ (d.map Prod.fst).toFinset := by simpa using hm
    rw [Finset.insert_eq_self.mpr this]
  · rw [dictInsert_eq_append_of_not_mem d k v hm, List.map_append]
    rw [List.toFinset_append]
    simp [Finset.union_comm, Finset.insert_eq]

theorem toFinset_map_fst_insertAll (prs : List (Str × Str)) :
    ∀ d : Dict,
      ((insertAll d prs).map Prod.fst).toFinset =
        (d.map Prod.fst).toFinset ∪ (prs.map Prod.fst).toFinset := by
  induction prs with
  | nil => intro d; simp [insertAll]
  | cons pr rest ih =>
    intro d
    rw [insertAll_cons, ih, toFinset_map_fst_dictInsert]
    rw [List.map_cons, List.toFinset_cons]
    rw [Finset.insert_union, Finset.union_insert]

theorem insertAll_of_fresh_nodup (prs : List (Str × Str)) :
    ∀ d : Dict, ((prs.map Prod.fst).Nodup) →
      (∀ k ∈ prs.map Prod.fst, k ∉ d.map Prod.fst) →
      insertAll d prs = d ++ prs := by
  induction prs with
  | nil => intro d _ _; simp [insertAll]
  | cons pr rest ih =>
    intro d hnd hfresh
    rw [List.map_cons, List.nodup_cons] at hnd
    obtain ⟨hhead, hnd'⟩ := hnd
    rw [insertAll_cons]
    have hnotin : pr.1 ∉ d.map Prod.fst := hfresh pr.1 (by simp)
    rw [dictInsert_eq_append_of_not_mem d pr.1 pr.2 hnotin]
    have hfresh' : ∀ k ∈ rest.map Prod.fst, k ∉ (d ++ [pr]).map Prod.fst := by
      intro k hk
      simp only [List.map_append, List.mem_append]
      rintro (hc | hc)
      · exact hfresh k (by simp [hk]) hc
      · simp only [List.map_cons, List.map_nil, List.mem_singleton] at hc
        subst hc
        exact hhead hk
    rw [ih (d ++ [pr]) hnd' hfresh']
    simp

theorem dictFind_of_mem_nodup (prs : List (Str × Str)) :
    ∀ l r : Str, (prs.map Prod.fst).Nodup → (l, r) ∈ prs →
      dictFind prs l = some r := by
  induction prs with
  | nil => intro l r _ hm; simp at hm
  | cons pr rest ih =>
    intro l r hnd hm
    rw [List.map_cons, List.nodup_cons] at hnd
    obtain ⟨hhead, hnd'⟩ := hnd
    rcases List.mem_cons.mp hm with hm | hm
    · simp [← hm, dictFind]
    · have hl : l ∈ rest.map Prod.fst := List.mem_map.mpr ⟨(l, r), hm, rfl⟩
      have hne : pr.1 ≠ l := fun hc => hhead (hc ▸ hl)
      simp only [dictFind, hne, if_false, reduceIte]
      exact ih l r hnd' hm

theorem wfPair_elim {p : Str} {l r : Str} (h : wfPair p = true)
    (hsp : splitFirst ':' p = some (l, r)) :
    pyStrip l ≠ [] ∧ pyStrip r ≠ [] := by
  unfold wfPair at h
  rw [hsp] at h
  simpa using h

theorem parseFilesAux_ok_of_wf (ps : List Str) :
    ∀ d : Dict, (∀ p ∈ ps, wfPair p = true) →
      parseFilesAux d ps = .ok (insertAll d (ps.map pairOf)) := by
  induction ps with
  | nil => intro d _; simp [parseFilesAux, insertAll]
  | cons spec rest ih =>
    intro d hwf
    have hs : wfPair spec = true := hwf spec (by simp)
    cases hsp : splitFirst ':' spec with
    | none =>
      unfold wfPair at hs
      rw [hsp] at hs
      simp at hs
    | some lr =>
      obtain ⟨l, r⟩ := lr
      obtain ⟨hl, hr⟩ := wfPair_elim hs hsp
      unfold parseFilesAux
      rw [hsp]
      simp only [hl, hr, if_false, reduceIte]
      rw [ih _ (fun p hp => hwf p (by simp [hp]))]
      have hpair : pairOf spec = (pyStrip l, pyStrip r) := by
        unfold pairOf
        rw [hsp]
      rw [List.map_cons, insertAll_cons, hpair]

/-! ## The remote environment and the command pipeline -/

theorem uploadLoop_calls (env : Env) (head : Str) :
    ∀ (files : List (Str × Str)) (s : St),
      ∃ t, (resultSt (uploadLoop env head files s)).calls = s.calls ++ t ∧
        ∀ c ∈ t, isLoopCall c = true := by
  intro files
  induction files with
  | nil => intro s; exact ⟨[], by simp [uploadLoop, resultSt], by simp⟩
  | cons pr rest ih =>
    intro s
    obtain ⟨lp, rp⟩ := pr
    cases hv : validate_file_path env lp with
    | error m =>
      refine ⟨[], ?_, by simp⟩
      simp [uploadLoop, hv, resultSt, addErr]
    | ok path =>
      cases hgc : env.getContents rp head with
      | ok fsha =>
        cases hu : env.updateFile rp (env.readFile path) fsha head with
        | ok u =>
          obtain ⟨t, ht, hall⟩ := ih (addCall (addCall s (.getContents rp head))
            (.updateFile rp (updateCommitMsg rp) (env.readFile path) fsha head))
          refine ⟨.getContents rp head ::
            .updateFile rp (updateCommitMsg rp) (env.readFile path) fsha head :: t, ?_, ?_⟩
          · simp only [uploadLoop, hv, hgc, hu]
            rw [ht]
            simp [addCall]
          · intro c hc
            rcases List.mem_cons.mp hc with hc | hc
            · subst hc; rfl
            · rcases List.mem_cons.mp hc with hc | hc
              · subst hc; rfl
              · exact hall c hc
        | error e1 =>
          cases hcf : env.createFile rp (env.readFile path) head with
          | ok u =>
            obtain ⟨t, ht, hall⟩ := ih (addCall (addCall (addCall s (.getContents rp head))
              (.updateFile rp (updateCommitMsg rp) (env.readFile path) fsha head))
              (.createFile rp (createCommitMsg rp) (env.readFile path) head))
            refine ⟨.getContents rp head ::
              .updateFile rp (updateCommitMsg rp) (env.readFile path) fsha head ::
              .createFile rp (createCommitMsg rp) (env.readFile path) head :: t, ?_, ?_⟩
            · simp only [uploadLoop, hv, hgc, hu, hcf]
              rw [ht]
              simp [addCall]
            · intro c hc
              rcases List.mem_cons.mp hc with hc | hc
              · subst hc; rfl
              · rcases List.mem_cons.mp hc with hc | hc
                · subst hc; rfl
                · rcases List.mem_cons.mp hc with hc | hc
                  · subst hc; rfl
                  · exact hall c hc
          | error e2 =>
            refine ⟨[.getContents rp head,
              .updateFile rp (updateCommitMsg rp) (env.readFile path) fsha head,
              .createFile rp (createCommitMsg rp) (env.readFile path) head], ?_, ?_⟩
            · simp only [uploadLoop, hv, hgc, hu, hcf]
              simp [resultSt, addErr, addCall]
            · intro c hc
              rcases List.mem_cons.mp hc with hc | hc
              · subst hc; rfl
              · rcases List.mem_cons.mp hc with hc | hc
                · subst hc; rfl
                · rcases List.mem_cons.mp hc with hc | hc
                  · subst hc; rfl
                  · simp at hc
      | error e0 =>
        cases hcf : env.createFile rp (env.readFile path) head with
        | ok u =>
          obtain ⟨t, ht, hall⟩ := ih (addCall (addCall s (.getContents rp head))
            (.createFile rp (createCommitMsg rp) (env.readFile path) head))
          refine ⟨.getContents rp head ::
            .createFile rp (createCommitMsg rp) (env.readFile path) head :: t, ?_, ?_⟩
          · simp only [uploadLoop, hv, hgc, hcf]
            rw [ht]
            simp [addCall]
          · intro c hc
            rcases List.mem_cons.mp hc with hc | hc
            · subst hc; rfl
            · rcases List.mem_cons.mp hc with hc | hc
              · subst hc; rfl
              · exact hall c hc
        | error e2 =>
          refine ⟨[.getContents rp head,
            .createFile rp (createCommitMsg rp) (env.readFile path) head], ?_, ?_⟩
          · simp only [uploadLoop, hv, hgc, hcf]
            simp [resultSt, addErr, addCall]
          · intro c hc
            rcases List.mem_cons.mp hc with hc | hc
            · subst hc; rfl
            · rcases List.mem_cons.mp hc with hc | hc
              · subst hc; rfl
              · simp at hc

theorem upload_files_mem_calls (env : Env) (head : Str) (files : Dict) (s : St)
    (c : Call) (hc : c ∈ (resultSt (upload_files env head files s)).calls) :
    c ∈ s.calls ∨ c = .getBranch mainBranch ∨
      (∃ sha, env.getBranch mainBranch = .ok sha ∧ c = .createRef (refsHeads head) sha) ∨
      isLoopCall c = true := by
  cases hgb : env.getBranch mainBranch with
  | error e =>
    simp only [upload_files, hgb] at hc
    simp only [resultSt, addErr, addCall] at hc
    rcases List.mem_append.mp hc with hc | hc
    · exact .inl hc
    · rw [List.mem_singleton] at hc
      exact .inr (.inl hc)
  | ok sha =>
    simp only [upload_files, hgb] at hc
    have hfold : c ∈ (resultSt (uploadLoop env head files
        (addCall (addCall s (.getBranch mainBranch)) (.createRef (refsHeads head) sha)))).calls →
        c ∈ s.calls ∨ c = .getBranch mainBranch ∨
          (∃ sh, (Except.ok sha : Except Str Str) = .ok sh ∧
            c = .createRef (refsHeads head) sh) ∨
          isLoopCall c = true := by
      intro hc'
      obtain ⟨t, ht, hall⟩ := uploadLoop_calls env head files
        (addCall (addCall s (.getBranch mainBranch)) (.createRef (refsHeads head) sha))
      rw [ht] at hc'
      simp only [addCall, List.append_assoc, List.mem_append, List.mem_singleton,
        List.mem_cons, List.not_mem_nil, or_false] at hc'
      rcases hc' with hc' | hc' | hc' | hc'
      · exact .inl hc'
      · exact .inr (.inl hc')
      · exact .inr (.inr (.inl ⟨sha, rfl, hc'⟩))
      · exact .inr (.inr (.inr (hall c hc')))
    cases hcr : env.createRef (refsHeads head) sha with
    | ok u =>
      simp only [hcr] at hc
      exact hfold hc
    | error e =>
      simp only [hcr] at hc
      by_cases hae : refAlreadyExists e = true
      · rw [if_pos hae] at hc
        exact hfold hc
      · rw [if_neg hae] at hc
        simp only [resultSt, addErr, addCall] at hc
        rcases List.mem_append.mp hc with hc | hc
        · rcases List.mem_append.mp hc with hc | hc
          · exact .inl hc
          · rw [List.mem_singleton] at hc
            exact .inr (.inl hc)
        · rw [List.mem_singleton] at hc
          exact .inr (.inr (.inl ⟨sha, rfl, hc⟩))

theorem upload_ok_mem_calls (env : Env) (head : Str) (files : Dict) (s s3 : St)
    (hup : (if files ≠ [] then upload_files env head files s else .ok s) = .ok s3)
    (c : Call) (hc : c ∈ s3.calls) :
    c ∈ s.calls ∨ c = .getBranch mainBranch ∨
      (∃ sha, env.getBranch mainBranch = .ok sha ∧ c = .createRef (refsHeads head) sha) ∨
      isLoopCall c = true := by
  by_cases hf : files = []
  · rw [if_neg (by simp [hf])] at hup
    injection hup with hup
    exact .inl (hup ▸ hc)
  · rw [if_pos hf] at hup
    have : resultSt (upload_files env head files s) = s3 := by rw [hup]; rfl
    exact upload_files_mem_calls env head files s c (this ▸ hc)

theorem calls_dryRunFiles (env : Env) :
    ∀ (files : List (Str × Str)) (s : St), (dryRunFiles env files s).calls = s.calls := by
  intro files
  induction files with
  | nil => intro s; rfl
  | cons pr rest ih =>
    intro s
    obtain ⟨lp, rp⟩ := pr
    unfold dryRunFiles
    cases hv : validate_file_path env lp with
    | ok path => rw [ih]; rfl
    | error m => rw [ih]; rfl

theorem calls_ite_addOut (P : Prop) [Decidable P] (s : St) (m : Str) :
    (if P then addOut s m else s).calls = s.calls := by
  by_cases h : P <;> simp [h, addOut]

theorem calls_ite_dryRunFiles (P : Prop) [Decidable P] (env : Env)
    (files : List (Str × Str)) (s : St) (m : Str) :
    (if P then dryRunFiles env files (addOut s m) else s).calls = s.calls := by
  by_cases h : P <;> simp [h, addOut, calls_dryRunFiles]

theorem calls_show_dry_run (env : Env) (o : Options) (files : Dict)
    (labels assignees reviewers : List Str) (s : St) :
    (show_dry_run env o files labels assignees reviewers s).calls = s.calls := by
  simp only [show_dry_run]
  rw [calls_ite_addOut, calls_ite_addOut, calls_ite_addOut, calls_ite_dryRunFiles]
  rfl

theorem mem_out_dryRunFiles (env : Env) :
    ∀ (files : List (Str × Str)) (s : St) (x : Str),
      x ∈ s.out → x ∈ (dryRunFiles env files s).out := by
  intro files
  induction files with
  | nil => intro s x hx; exact hx
  | cons pr rest ih =>
    intro s x hx
    obtain ⟨lp, rp⟩ := pr
    unfold dryRunFiles
    cases hv : validate_file_path env lp with
    | ok path => exact ih _ x (by simp [addOut, hx])
    | error m => exact ih _ x (by simp [addOut, addErr, hx])

theorem mem_out_addOut (s : St) (m x : Str) (hx : x ∈ s.out) :
    x ∈ (addOut s m).out := by
  simp [addOut, hx]

theorem mem_out_ite_addOut (P : Prop) [Decidable P] (s : St) (m x : Str)
    (hx : x ∈ s.out) : x ∈ (if P then addOut s m else s).out := by
  by_cases h : P <;> simp [h, addOut, hx]

theorem mem_out_ite_dryRunFiles (P : Prop) [Decidable P] (env : Env)
    (files : List (Str × Str)) (s : St) (m x : Str) (hx : x ∈ s.out) :
    x ∈ (if P then dryRunFiles env files (addOut s m) else s).out := by
  by_cases h : P
  · rw [if_pos h]
    exact mem_out_dryRunFiles env files _ x (mem_out_addOut s m x hx)
  · rw [if_neg h]
    exact hx

theorem mem_out_show_dry_run (env : Env) (o : Options) (files : Dict)
    (labels assignees reviewers : List Str) (s : St) (x : Str) (hx : x ∈ s.out) :
    x ∈ (show_dry_run env o files labels assignees reviewers s).out := by
  simp only [show_dry_run]
  apply mem_out_ite_addOut
  apply mem_out_ite_addOut
  apply mem_out_ite_addOut
  apply mem_out_ite_dryRunFiles
  apply mem_out_addOut
  apply mem_out_addOut
  apply mem_out_addOut
  apply mem_out_addOut
  apply mem_out_addOut
  apply mem_out_addOut
  apply mem_out_addOut
  exact hx

theorem calls_add_labels (env : Env) (ls : List Str) (s : St) :
    (add_labels env ls s).calls = s.calls ++ [.addLabels ls] := by
  unfold add_labels
  cases env.addLabels ls <;> rfl

theorem calls_add_assignees (env : Env) (as₁ : List Str) (s : St) :
    (add_assignees env as₁ s).calls = s.calls ++ [.addAssignees as₁] := by
  unfold add_assignees
  cases env.addAssignees as₁ <;> rfl

theorem calls_add_reviewers (env : Env) (rs : List Str) (s : St) :
    (add_reviewers env rs s).calls = s.calls ++ [.addReviewers rs] := by
  unfold add_reviewers
  cases env.addReviewers rs <;> rfl

theorem err_mono_add_labels (env : Env) (ls : List Str) (s : St) (x : Sev × Str)
    (hx : x ∈ s.err) : x ∈ (add_labels env ls s).err := by
  unfold add_labels
  cases env.addLabels ls <;> simp [addCall, addErr, hx]

theorem err_mono_add_assignees (env : Env) (as₁ : List Str) (s : St) (x : Sev × Str)
    (hx : x ∈ s.err) : x ∈ (add_assignees env as₁ s).err := by
  unfold add_assignees
  cases env.addAssignees as₁ <;> simp [addCall, addErr, hx]

theorem err_mono_add_reviewers (env : Env) (rs : List Str) (s : St) (x : Sev × Str)
    (hx : x ∈ s.err) : x ∈ (add_reviewers env rs s).err := by
  unfold add_reviewers
  cases env.addReviewers rs <;> simp [addCall, addErr, hx]

theorem warn_add_labels (env : Env) (ls : List Str) (s : St) (e : Str)
    (he : env.addLabels ls = .error e) :
    (Sev.warning, failedAddLabelsMsg e) ∈ (add_labels env ls s).err := by
  unfold add_labels
  rw [he]
  simp [addCall, addErr]

theorem warn_add_assignees (env : Env) (as₁ : List Str) (s : St) (e : Str)
    (he : env.addAssignees as₁ = .error e) :
    (Sev.warning, failedAddAssigneesMsg e) ∈ (add_assignees env as₁ s).err := by
  unfold add_assignees
  rw [he]
  simp [addCall, addErr]

theorem warn_add_reviewers (env : Env) (rs : List Str) (s : St) (e : Str)
    (he : env.addReviewers rs = .error e) :
    (Sev.warning, failedAddReviewersMsg e) ∈ (add_reviewers env rs s).err := by
  unfold add_reviewers
  rw [he]
  simp [addCall, addErr]

theorem uploadLoop_ok_of_success (env : Env) (head : Str)
    (hupd : ∀ p c sh br, env.updateFile p c sh br = .ok ())
    (hcre : ∀ p c br, env.createFile p c br = .ok ()) :
    ∀ (files : List (Str × Str)) (s : St),
      (∀ lp rp, (lp, rp) ∈ files → ∃ pth, validate_file_path env lp = .ok pth) →
      ∃ s', uploadLoop env head files s = .ok s' := by
  intro files
  induction files with
  | nil => intro s _; exact ⟨s, rfl⟩
  | cons pr rest ih =>
    intro s hval
    obtain ⟨lp, rp⟩ := pr
    obtain ⟨pth, hpth⟩ := hval lp rp (by simp)
    cases hgc : env.getContents rp head with
    | ok fsha =>
      simp only [uploadLoop, hpth, hgc, hupd rp (env.readFile pth) fsha head]
      exact ih _ (fun lp' rp' h => hval lp' rp' (by simp [h]))
    | error e0 =>
      simp only [uploadLoop, hpth, hgc, hcre rp (env.readFile pth) head]
      exact ih _ (fun lp' rp' h => hval lp' rp' (by simp [h]))

/-! ## Further parser lemmas -/

theorem wfPair_false_elim {p : Str} {l r : Str} (h : wfPair p = false)
    (hsp : splitFirst ':' p = some (l, r)) :
    pyStrip l = [] ∨ pyStrip r = [] := by
  unfold wfPair at h
  rw [hsp] at h
  by_cases hl : pyStrip l = []
  · exact .inl hl
  · by_cases hr : pyStrip r = []
    · exact .inr hr
    · simp [hl, hr] at h

theorem parseFilesAux_error_of_bad (ps : List Str) :
    ∀ d : Dict, (∃ p ∈ ps, wfPair p = false) →
      ∃ m, parseFilesAux d ps = .error m := by
  induction ps with
  | nil =>
    intro d h
    obtain ⟨p, hp, _⟩ := h
    simp at hp
  | cons spec rest ih =>
    intro d hbad
    by_cases hws : wfPair spec = true
    · cases hsp : splitFirst ':' spec with
      | none =>
        unfold wfPair at hws
        rw [hsp] at hws
        simp at hws
      | some lr =>
        obtain ⟨l, r⟩ := lr
        obtain ⟨hl, hr⟩ := wfPair_elim hws hsp
        have hrest : ∃ p ∈ rest, wfPair p = false := by
          obtain ⟨p, hp, hpf⟩ := hbad
          rcases List.mem_cons.mp hp with hp | hp
          · rw [hp] at hpf
            rw [hpf] at hws
            simp at hws
          · exact ⟨p, hp, hpf⟩
        obtain ⟨m, hm⟩ := ih (dictInsert d (pyStrip l) (pyStrip r)) hrest
        refine ⟨m, ?_⟩
        simp only [parseFilesAux, hsp, hl, hr, if_false, reduceIte]
        exact hm
    · have hws' : wfPair spec = false := by
        cases h : wfPair spec
        · rfl
        · exact absurd h hws
      cases hsp : splitFirst ':' spec with
      | none => exact ⟨invalidSpecMsg spec, by simp only [parseFilesAux, hsp]⟩
      | some lr =>
        obtain ⟨l, r⟩ := lr
        rcases wfPair_false_elim hws' hsp with hl | hr
        · exact ⟨emptyLocalMsg spec, by simp only [parseFilesAux, hsp, hl, reduceIte]⟩
        · by_cases hl : pyStrip l = []
          · exact ⟨emptyLocalMsg spec, by simp only [parseFilesAux, hsp, hl, reduceIte]⟩
          · exact ⟨emptyRemoteMsg spec, by
              simp only [parseFilesAux, hsp, hl, hr, if_false, reduceIte]⟩

theorem parse_files_eq_of_wf (s : Str)
    (hwf : ∀ p ∈ splitOnChar ',' s, wfPair p = true) :
    parse_files (some s) = .ok (insertAll [] (pairsOf s)) := by
  have hne : s ≠ [] := by
    intro hc
    subst hc
    have := hwf [] (by simp [splitOnChar])
    simp [wfPair, splitFirst] at this
  have hps : parse_files (some s) =
      if s = [] then Except.ok [] else parseFilesAux [] (splitOnChar ',' s) := rfl
  rw [hps, if_neg hne, parseFilesAux_ok_of_wf _ _ hwf]
  rfl

theorem splitFirst_sound (sep : Char) :
    ∀ p l r : Str, splitFirst sep p = some (l, r) → p = l ++ sep :: r ∧ sep ∉ l := by
  intro p
  induction p with
  | nil => intro l r h; exact Option.noConfusion h
  | cons c cs ih =>
    intro l r h
    by_cases hc : c = sep
    · rw [splitFirst, if_pos hc] at h
      injection h with h
      rw [Prod.mk.injEq] at h
      obtain ⟨h1, h2⟩ := h
      subst h1
      subst h2
      exact ⟨by simp [hc], by simp⟩
    · rw [splitFirst, if_neg hc] at h
      cases hrec : splitFirst sep cs with
      | none => rw [hrec] at h; simp at h
      | some lr =>
        obtain ⟨l', r'⟩ := lr
        rw [hrec] at h
        injection h with h
        have h1 : c :: l' = l := congrArg Prod.fst h
        have h2 : r' = r := congrArg Prod.snd h
        obtain ⟨hcs, hmem⟩ := ih l' r' hrec
        subst h1
        subst h2
        constructor
        · rw [hcs]
          rfl
        · intro hm
          rcases List.mem_cons.mp hm with hm | hm
          · exact hc hm.symm
          · exact hmem hm

/-! ## Stage lemmas for the pull-request tail -/

theorem calls_addOut (s : St) (m : Str) : (addOut s m).calls = s.calls := rfl

theorem err_addOut (s : St) (m : Str) : (addOut s m).err = s.err := rfl

theorem mem_calls_ite_add_labels (P : Prop) [Decidable P] (env : Env)
    (ls : List Str) (s : St) (c : Call)
    (hc : c ∈ (if P then add_labels env ls s else s).calls) :
    c ∈ s.calls ∨ c = .addLabels ls := by
  by_cases h : P
  · rw [if_pos h, calls_add_labels] at hc
    rcases List.mem_append.mp hc with h' | h'
    · exact .inl h'
    · rw [List.mem_singleton] at h'
      exact .inr h'
  · rw [if_neg h] at hc
    exact .inl hc

theorem mem_calls_ite_add_assignees (P : Prop) [Decidable P] (env : Env)
    (as₁ : List Str) (s : St) (c : Call)
    (hc : c ∈ (if P then add_assignees env as₁ s else s).calls) :
    c ∈ s.calls ∨ c = .addAssignees as₁ := by
  by_cases h : P
  · rw [if_pos h, calls_add_assignees] at hc
    rcases List.mem_append.mp hc with h' | h'
    · exact .inl h'
    · rw [List.mem_singleton] at h'
      exact .inr h'
  · rw [if_neg h] at hc
    exact .inl hc

theorem mem_calls_ite_add_reviewers (P : Prop) [Decidable P] (env : Env)
    (rs : List Str) (s : St) (c : Call)
    (hc : c ∈ (if P then add_reviewers env rs s else s).calls) :
    c ∈ s.calls ∨ c = .addReviewers rs := by
  by_cases h : P
  · rw [if_pos h, calls_add_reviewers] at hc
    rcases List.mem_append.mp hc with h' | h'
    · exact .inl h'
    · rw [List.mem_singleton] at h'
      exact .inr h'
  · rw [if_neg h] at hc
    exact .inl hc

theorem err_mono_ite_add_assignees (P : Prop) [Decidable P] (env : Env)
    (as₁ : List Str) (s : St) (x : Sev × Str) (hx : x ∈ s.err) :
    x ∈ (if P then add_assignees env as₁ s else s).err := by
  by_cases h : P
  · rw [if_pos h]
    exact err_mono_add_assignees env as₁ s x hx
  · rw [if_neg h]
    exact hx

theorem err_mono_ite_add_reviewers (P : Prop) [Decidable P] (env : Env)
    (rs : List Str) (s : St) (x : Sev × Str) (hx : x ∈ s.err) :
    x ∈ (if P then add_reviewers env rs s else s).err := by
  by_cases h : P
  · rw [if_pos h]
    exact err_mono_add_reviewers env rs s x hx
  · rw [if_neg h]
    exact hx

theorem mem_calls_pull_request_stage (env : Env) (o : Options)
    (ls as₁ rs : List Str) (s3 : St) (c : Call)
    (hc : c ∈ (pull_request_stage env o ls as₁ rs s3).1.calls) :
    c ∈ s3.calls ∨ c = .createPull o.title o.body o.base_branch o.head_branch o.draft ∨
      c = .addLabels ls ∨ c = .addAssignees as₁ ∨ c = .addReviewers rs := by
  cases hpc : env.createPull o.title o.body o.base_branch o.head_branch o.draft with
  | error e =>
    simp only [pull_request_stage, hpc] at hc
    simp only [addErr, addCall] at hc
    rcases List.mem_append.mp hc with h | h
    · exact .inl h
    · rw [List.mem_singleton] at h
      exact .inr (.inl h)
  | ok url =>
    simp only [pull_request_stage, hpc] at hc
    rw [calls_addOut] at hc
    rcases mem_calls_ite_add_reviewers _ env rs _ c hc with hc | hc
    · rcases mem_calls_ite_add_assignees _ env as₁ _ c hc with hc | hc
      · rcases mem_calls_ite_add_labels _ env ls _ c hc with hc | hc
        · simp only [addCall] at hc
          rcases List.mem_append.mp hc with h | h
          · exact .inl h
          · rw [List.mem_singleton] at h
            exact .inr (.inl h)
        · exact .inr (.inr (.inl hc))
      · exact .inr (.inr (.inr (.inl hc)))
    · exact .inr (.inr (.inr (.inr hc)))

theorem mem_createPull_pull_request_stage (env : Env) (o : Options)
    (ls as₁ rs : List Str) (s3 : St) (t b bb hb : Str) (d : Bool)
    (hs3 : ∀ (t' b' bb' hb' : Str) (d' : Bool),
      Call.createPull t' b' bb' hb' d' ∉ s3.calls)
    (hc : Call.createPull t b bb hb d ∈ (pull_request_stage env o ls as₁ rs s3).1.calls) :
    t = o.title ∧ b = o.body ∧ bb = o.base_branch ∧ hb = o.head_branch ∧ d = o.draft := by
  rcases mem_calls_pull_request_stage env o ls as₁ rs s3 _ hc with h | h | h | h | h
  · exact absurd h (hs3 t b bb hb d)
  · injection h with h1 h2 h3 h4 h5
    exact ⟨h1, h2, h3, h4, h5⟩
  · exact absurd h (by simp)
  · exact absurd h (by simp)
  · exact absurd h (by simp)

theorem pull_request_stage_error (env : Env) (o : Options)
    (ls as₁ rs : List Str) (s3 : St) (e : Str)
    (he : env.createPull o.title o.body o.base_branch o.head_branch o.draft = .error e) :
    pull_request_stage env o ls as₁ rs s3 =
      (addErr (addErr (addCall s3 (.createPull o.title o.body o.base_branch o.head_branch o.draft))
        .error (failedCreatePullMsg e)) .error (unexpectedErrMsg e), 1) := by
  simp only [pull_request_stage, he]

theorem pull_request_stage_ok (env : Env) (o : Options)
    (ls as₁ rs : List Str) (s3 : St) (url : Str)
    (hok : env.createPull o.title o.body o.base_branch o.head_branch o.draft = .ok url) :
    (pull_request_stage env o ls as₁ rs s3).2 = 0
    ∧ successMsg url ∈ (pull_request_stage env o ls as₁ rs s3).1.out
    ∧ (∀ e, ls ≠ [] → env.addLabels ls = .error e →
        (Sev.warning, failedAddLabelsMsg e) ∈ (pull_request_stage env o ls as₁ rs s3).1.err)
    ∧ (∀ e, as₁ ≠ [] → env.addAssignees as₁ = .error e →
        (Sev.warning, failedAddAssigneesMsg e) ∈ (pull_request_stage env o ls as₁ rs s3).1.err)
    ∧ (∀ e, rs ≠ [] → env.addReviewers rs = .error e →
        (Sev.warning, failedAddReviewersMsg e) ∈ (pull_request_stage env o ls as₁ rs s3).1.err) := by
  refine ⟨?_, ?_, ?_, ?_, ?_⟩
  · simp only [pull_request_stage, hok]
  · simp only [pull_request_stage, hok]
    simp [addOut]
  · intro e hl he
    simp only [pull_request_stage, hok]
    rw [err_addOut]
    apply err_mono_ite_add_reviewers
    apply err_mono_ite_add_assignees
    rw [if_pos hl]
    exact warn_add_labels env ls _ e he
  · intro e ha he
    simp only [pull_request_stage, hok]
    rw [err_addOut]
    apply err_mono_ite_add_reviewers
    rw [if_pos ha]
    exact warn_add_assignees env as₁ _ e he
  · intro e hr he
    simp only [pull_request_stage, hok]
    rw [err_addOut]
    rw [if_pos hr]
    exact warn_add_reviewers env rs _ e he

theorem mem_calls_upload_and_pr (env : Env) (o : Options) (files : Dict)
    (ls as₁ rs : List Str) (s2 : St) (c : Call)
    (hc : c ∈ (upload_and_pr env o files ls as₁ rs s2).1.calls) :
    c ∈ s2.calls ∨ c = .getBranch mainBranch ∨
      (∃ sha, env.getBranch mainBranch = .ok sha ∧ c = .createRef (refsHeads o.head_branch) sha) ∨
      isLoopCall c = true ∨
      c = .createPull o.title o.body o.base_branch o.head_branch o.draft ∨
      c = .addLabels ls ∨ c = .addAssignees as₁ ∨ c = .addReviewers rs := by
  unfold upload_and_pr at hc
  cases hup : (if files ≠ [] then upload_files env o.head_branch files s2 else Except.ok s2) with
  | error p =>
    obtain ⟨sE, k⟩ := p
    have hfe : files ≠ [] := by
      intro hfc
      rw [if_neg (by simp [hfc])] at hup
      exact Except.noConfusion hup
    rw [if_pos hfe] at hup
    have hres : resultSt (upload_files env o.head_branch files s2) = sE := by
      rw [hup]
      rfl
    have hmem : c ∈ sE.calls := by
      rw [if_pos hfe, hup] at hc
      cases k with
      | sysExit => exact hc
      | ghExc e =>
        simp only [addErr] at hc
        exact hc
    rcases upload_files_mem_calls env o.head_branch files s2 c (hres ▸ hmem) with h | h | h | h
    · exact .inl h
    · exact .inr (.inl h)
    · exact .inr (.inr (.inl h))
    · exact .inr (.inr (.inr (.inl h)))
  | ok s3 =>
    rw [hup] at hc
    have hc' : c ∈ (pull_request_stage env o ls as₁ rs s3).1.calls := hc
    rcases mem_calls_pull_request_stage env o ls as₁ rs s3 c hc' with h | h | h | h | h
    · rcases upload_ok_mem_calls env o.head_branch files s2 s3 hup c h with h' | h' | h' | h'
      · exact .inl h'
      · exact .inr (.inl h')
      · exact .inr (.inr (.inl h'))
      · exact .inr (.inr (.inr (.inl h')))
    · exact .inr (.inr (.inr (.inr (.inl h))))
    · exact .inr (.inr (.inr (.inr (.inr (.inl h)))))
    · exact .inr (.inr (.inr (.inr (.inr (.inr (.inl h))))))
    · exact .inr (.inr (.inr (.inr (.inr (.inr (.inr h))))))

/-! ## Handle-level lemmas -/

theorem isEnrich_false_of_loop (c : Call) (h : isLoopCall c = true) :
    isEnrichCall c = false := by
  cases c <;> simp_all [isLoopCall, isEnrichCall]

theorem header_mem_out_show_dry_run (env : Env) (o : Options) (files : Dict)
    (labels assignees reviewers : List Str) (s : St) :
    "DRY RUN - No changes will be made".data ∈
      (show_dry_run env o files labels assignees reviewers s).out := by
  simp only [show_dry_run]
  apply mem_out_ite_addOut
  apply mem_out_ite_addOut
  apply mem_out_ite_addOut
  apply mem_out_ite_dryRunFiles
  apply mem_out_addOut
  apply mem_out_addOut
  apply mem_out_addOut
  apply mem_out_addOut
  apply mem_out_addOut
  apply mem_out_addOut
  simp [addOut]

theorem handle_mem_calls (env : Env) (o : Options) (c : Call)
    (hc : c ∈ (handle env o).1.calls) :
    c = .getRepo o.repository ∨ c = .getBranch o.base_branch ∨ c = .getBranch mainBranch ∨
      (∃ sha, env.getBranch mainBranch = .ok sha ∧ c = .createRef (refsHeads o.head_branch) sha) ∨
      isLoopCall c = true ∨
      c = .createPull o.title o.body o.base_branch o.head_branch o.draft ∨
      c = .addLabels (parse_list o.labels) ∨
      c = .addAssignees (parse_list o.assignees) ∨
      c = .addReviewers (parse_list o.reviewers) := by
  simp only [handle] at hc
  by_cases hslash : o.repository.contains '/' = false
  · rw [if_pos hslash] at hc
    simp [addErr, emptySt] at hc
  · rw [if_neg hslash] at hc
    by_cases hauth : env.auth = false
    · rw [if_pos hauth] at hc
      simp [addErr, emptySt] at hc
    · rw [if_neg hauth] at hc
      cases hrepo : env.getRepo o.repository with
      | error e =>
        simp only [hrepo] at hc
        simp [addErr, addCall, emptySt] at hc
        exact .inl hc
      | ok u =>
        simp only [hrepo] at hc
        cases hbase : env.getBranch o.base_branch with
        | error e =>
          simp only [hbase] at hc
          simp [addErr, addCall, emptySt] at hc
          rcases hc with hc | hc
          · exact .inl hc
          · exact .inr (.inl hc)
        | ok shaB =>
          simp only [hbase] at hc
          cases hpf : parse_files o.files with
          | error m =>
            simp only [hpf] at hc
            simp [addErr, addCall, emptySt] at hc
            rcases hc with hc | hc
            · exact .inl hc
            · exact .inr (.inl hc)
          | ok files =>
            simp only [hpf] at hc
            cases hdry : o.dry_run with
            | true =>
              simp only [hdry, reduceIte] at hc
              rw [calls_show_dry_run] at hc
              simp [addCall, emptySt] at hc
              rcases hc with hc | hc
              · exact .inl hc
              · exact .inr (.inl hc)
            | false =>
              simp only [hdry, Bool.false_eq_true, reduceIte] at hc
              rcases mem_calls_upload_and_pr env o files _ _ _ _ c hc with
                h | h | h | h | h | h | h | h
              · simp [addCall, emptySt] at h
                rcases h with h | h
                · exact .inl h
                · exact .inr (.inl h)
              · exact .inr (.inr (.inl h))
              · exact .inr (.inr (.inr (.inl h)))
              · exact .inr (.inr (.inr (.inr (.inl h))))
              · exact .inr (.inr (.inr (.inr (.inr (.inl h)))))
              · exact .inr (.inr (.inr (.inr (.inr (.inr (.inl h))))))
              · exact .inr (.inr (.inr (.inr (.inr (.inr (.inr (.inl h)))))))
              · exact .inr (.inr (.inr (.inr (.inr (.inr (.inr (.inr h)))))))

theorem handle_createPull_cases (env : Env) (o : Options)
    (t b bb hb : Str) (d : Bool)
    (hmem : Call.createPull t b bb hb d ∈ (handle env o).1.calls) :
    (t = o.title ∧ b = o.body ∧ bb = o.base_branch ∧ hb = o.head_branch ∧ d = o.draft)
    ∧ (∀ e, env.createPull o.title o.body o.base_branch o.head_branch o.draft = .error e →
        (handle env o).2 = 1 ∧ ∀ c ∈ (handle env o).1.calls, isEnrichCall c = false)
    ∧ (∀ url, env.createPull o.title o.body o.base_branch o.head_branch o.draft = .ok url →
        (handle env o).2 = 0
        ∧ successMsg url ∈ (handle env o).1.out
        ∧ (∀ e, parse_list o.labels ≠ [] → env.addLabels (parse_list o.labels) = .error e →
            (Sev.warning, failedAddLabelsMsg e) ∈ (handle env o).1.err)
        ∧ (∀ e, parse_list o.assignees ≠ [] →
            env.addAssignees (parse_list o.assignees) = .error e →
            (Sev.warning, failedAddAssigneesMsg e) ∈ (handle env o).1.err)
        ∧ (∀ e, parse_list o.reviewers ≠ [] →
            env.addReviewers (parse_list o.reviewers) = .error e →
            (Sev.warning, failedAddReviewersMsg e) ∈ (handle env o).1.err)) := by
  by_cases hslash : o.repository.contains '/' = false
  · simp only [handle] at hmem
    rw [if_pos hslash] at hmem
    simp [addErr, emptySt] at hmem
  · by_cases hauth : env.auth = false
    · simp only [handle] at hmem
      rw [if_neg hslash, if_pos hauth] at hmem
      simp [addErr, emptySt] at hmem
    · cases hrepo : env.getRepo o.repository with
      | error e =>
        simp only [handle, hrepo] at hmem
        rw [if_neg hslash, if_neg hauth] at hmem
        simp [addErr, addCall, emptySt] at hmem
      | ok u =>
        cases hbase : env.getBranch o.base_branch with
        | error e =>
          simp only [handle, hrepo, hbase] at hmem
          rw [if_neg hslash, if_neg hauth] at hmem
          simp [addErr, addCall, emptySt] at hmem
        | ok shaB =>
          cases hpf : parse_files o.files with
          | error m =>
            simp only [handle, hrepo, hbase, hpf] at hmem
            rw [if_neg hslash, if_neg hauth] at hmem
            simp [addErr, addCall, emptySt] at hmem
          | ok files =>
            cases hdry : o.dry_run with
            | true =>
              simp only [handle, hrepo, hbase, hpf, hdry, reduceIte] at hmem
              rw [if_neg hslash, if_neg hauth] at hmem
              rw [calls_show_dry_run] at hmem
              simp [addCall, emptySt] at hmem
            | false =>
              have heq : handle env o =
                  upload_and_pr env o files (parse_list o.labels) (parse_list o.assignees)
                    (parse_list o.reviewers)
                    (addCall (addCall emptySt (.getRepo o.repository))
                      (.getBranch o.base_branch)) := by
                simp only [handle, hrepo, hbase, hpf, hdry, Bool.false_eq_true, reduceIte]
                rw [if_neg hslash, if_neg hauth]
              rw [heq] at hmem ⊢
              cases hup : (if files ≠ [] then upload_files env o.head_branch files
                  (addCall (addCall emptySt (.getRepo o.repository))
                    (.getBranch o.base_branch)) else
                  Except.ok (addCall (addCall emptySt (.getRepo o.repository))
                    (.getBranch o.base_branch))) with
              | error p =>
                obtain ⟨sE, k⟩ := p
                have hfe : files ≠ [] := by
                  intro hfc
                  rw [if_neg (by simp [hfc])] at hup
                  exact Except.noConfusion hup
                rw [if_pos hfe] at hup
                have hres : resultSt (upload_files env o.head_branch files
                    (addCall (addCall emptySt (.getRepo o.repository))
                      (.getBranch o.base_branch))) = sE := by
                  rw [hup]
                  rfl
                have hmem' : Call.createPull t b bb hb d ∈ sE.calls := by
                  unfold upload_and_pr at hmem
                  rw [if_pos hfe, hup] at hmem
                  cases k with
                  | sysExit => exact hmem
                  | ghExc e => exact hmem
                rcases upload_files_mem_calls env o.head_branch files _ _ (hres ▸ hmem') with
                  h | h | h | h
                · simp [addCall, emptySt] at h
                · simp at h
                · obtain ⟨sha, _, h⟩ := h
                  simp at h
                · simp [isLoopCall] at h
              | ok s3 =>
                have hupr : upload_and_pr env o files (parse_list o.labels)
                    (parse_list o.assignees) (parse_list o.reviewers)
                    (addCall (addCall emptySt (.getRepo o.repository))
                      (.getBranch o.base_branch)) =
                    pull_request_stage env o (parse_list o.labels) (parse_list o.assignees)
                      (parse_list o.reviewers) s3 := by
                  unfold upload_and_pr
                  rw [hup]
                rw [hupr] at hmem ⊢
                have hs3 : ∀ (t' b' bb' hb' : Str) (d' : Bool),
                    Call.createPull t' b' bb' hb' d' ∉ s3.calls := by
                  intro t' b' bb' hb' d' hmc
                  rcases upload_ok_mem_calls env o.head_branch files _ s3 hup _ hmc with
                    h | h | h | h
                  · simp [addCall, emptySt] at h
                  · simp at h
                  · obtain ⟨sha, _, h⟩ := h
                    simp at h
                  · simp [isLoopCall] at h
                refine ⟨mem_createPull_pull_request_stage env o _ _ _ s3 t b bb hb d hs3 hmem,
                  ?_, ?_⟩
                · intro e he
                  rw [pull_request_stage_error env o _ _ _ s3 e he]
                  refine ⟨rfl, ?_⟩
                  intro c hcc
                  simp only [addErr, addCall] at hcc
                  rcases List.mem_append.mp hcc with h | h
                  · rcases upload_ok_mem_calls env o.head_branch files _ s3 hup _ h with
                      h' | h' | h' | h'
                    · simp [addCall, emptySt] at h'
                      rcases h' with h' | h' <;> rw [h'] <;> rfl
                    · rw [h']
                      rfl
                    · obtain ⟨sha, _, h'⟩ := h'
                      rw [h']
                      rfl
                    · exact isEnrich_false_of_loop c h'
                  · rw [List.mem_singleton] at h
                    rw [h]
                    rfl
                · intro url hok
                  exact pull_request_stage_ok env o _ _ _ s3 url hok

/-! ## Claim theorems -/

/-- C1 (counterexample): the repository identifier `"owner/"` does not
split into two non-empty segments on the first slash, yet the command does
not fail before network calls: with an all-success environment it proceeds,
issues remote calls and exits 0.  The code only checks `"/" not in
repository`. -/
theorem c1_counterexample :
    splitsTwoNonEmpty ("owner/".data) = false
    ∧ (handle envOk optsOwnerSlash).2 = 0
    ∧ (handle envOk optsOwnerSlash).1.calls ≠ [] := by decide

/-- C1 (amended): a repository identifier that does not contain a slash at
all fails immediately with the invalid-format error and exit code 1, before
any network call (the call trace is empty); identifiers containing a slash
pass this validation even when a segment is empty. -/
theorem c1_theorem (env : Env) (o : Options)
    (h : o.repository.contains '/' = false) :
    (handle env o).1.calls = [] ∧ (handle env o).2 = 1
    ∧ (handle env o).1.err = [(Sev.error, invalidRepoMsg o.repository)] := by
  simp only [handle]
  rw [if_pos h]
  exact ⟨rfl, rfl, rfl⟩

/-- Witness for C1 at the concrete identifier `"invalid-repo"`. -/
theorem c1_witness :
    (handle envOk optsNoSlash).1.calls = [] ∧ (handle envOk optsNoSlash).2 = 1
    ∧ (handle envOk optsNoSlash).1.err =
        [(Sev.error, invalidRepoMsg ("invalid-repo".data))] :=
  c1_theorem envOk optsNoSlash (by decide)

/-- C2: whenever the run creates a git reference, the commit SHA used as
the creation point is the tip of the hard-coded branch `"main"` — for every
value of the `--base-branch` option — and the reference is
`refs/heads/<head-branch>`. -/
theorem c2_theorem (env : Env) (o : Options) (ref sha : Str)
    (h : Call.createRef ref sha ∈ (handle env o).1.calls) :
    env.getBranch mainBranch = .ok sha ∧ ref = refsHeads o.head_branch := by
  rcases handle_mem_calls env o _ h with h1 | h1 | h1 | h1 | h1 | h1 | h1 | h1 | h1
  · exact absurd h1 (by simp)
  · exact absurd h1 (by simp)
  · exact absurd h1 (by simp)
  · obtain ⟨sh, hsh, he⟩ := h1
    injection he with hr hs
    subst hr
    subst hs
    exact ⟨hsh, rfl⟩
  · simp [isLoopCall] at h1
  · exact absurd h1 (by simp)
  · exact absurd h1 (by simp)
  · exact absurd h1 (by simp)
  · exact absurd h1 (by simp)

/-- Witness for C2: with base branch `"develop"`, the reference is still
created at the tip of `"main"`. -/
theorem c2_witness :
    envOk.getBranch mainBranch = .ok ("abc123".data)
    ∧ ("refs/heads/feature/test".data) = refsHeads optsFiles.head_branch :=
  c2_theorem envOk optsFiles ("refs/heads/feature/test".data) ("abc123".data) (by decide)

/-- C3 (counterexample): the input `"a:1,a:2"` is well formed (every pair
has a colon and non-empty sides) and has n = 2 pairs, but the parser
returns a mapping of size 1, not n: the duplicate local path collapses. -/
theorem c3_counterexample :
    (splitOnChar ',' ("a:1,a:2".data)).all wfPair = true
    ∧ (splitOnChar ',' ("a:1,a:2".data)).length = 2
    ∧ Except.map List.length (parse_files (some ("a:1,a:2".data))) = .ok 1 := by decide

/-- C3 (amended): for empty or absent input the parser returns the empty
mapping, and for every well-formed input whose trimmed local paths are
pairwise distinct it returns the mapping of all n pairs, in order, mapping
each local path to its remote path. -/
theorem c3_theorem :
    parse_files none = .ok [] ∧ parse_files (some []) = .ok []
    ∧ ∀ s : Str, (∀ p ∈ splitOnChar ',' s, wfPair p = true) →
        ((pairsOf s).map Prod.fst).Nodup →
        parse_files (some s) = .ok (pairsOf s)
        ∧ (pairsOf s).length = (splitOnChar ',' s).length
        ∧ (∀ l r, (l, r) ∈ pairsOf s → dictFind (pairsOf s) l = some r) := by
  refine ⟨rfl, rfl, ?_⟩
  intro s hwf hnd
  have h1 : parse_files (some s) = .ok (insertAll [] (pairsOf s)) :=
    parse_files_eq_of_wf s hwf
  have h2 : insertAll [] (pairsOf s) = pairsOf s := by
    have h := insertAll_of_fresh_nodup (pairsOf s) [] hnd (by simp)
    simpa using h
  refine ⟨h2 ▸ h1, by simp [pairsOf], ?_⟩
  intro l r hm
  exact dictFind_of_mem_nodup (pairsOf s) l r hnd hm

/-- Witness for C3 at the concrete input `"a:1,b:2"`. -/
theorem c3_witness :
    parse_files (some ("a:1,b:2".data)) = .ok (pairsOf ("a:1,b:2".data))
    ∧ dictFind (pairsOf ("a:1,b:2".data)) ("a".data) = some ("1".data) := by
  obtain ⟨h1, _, h3⟩ := c3_theorem.2.2 ("a:1,b:2".data) (by decide) (by decide)
  exact ⟨h1, h3 ("a".data) ("1".data) (by decide)⟩

/-- C4: any non-empty file-mapping input containing a pair without a colon
or with an empty trimmed side makes the parser fail with an error; a pair
is split at its first colon only (so the remote side keeps any further
colons intact); and when the parser fails, the command exits 1. -/
theorem c4_theorem :
    (∀ s : Str, s ≠ [] → (∃ p ∈ splitOnChar ',' s, wfPair p = false) →
      ∃ m, parse_files (some s) = .error m)
    ∧ (∀ p l r : Str, splitFirst ':' p = some (l, r) → p = l ++ ':' :: r ∧ ':' ∉ l)
    ∧ (∀ (env : Env) (o : Options) (sha m : Str),
        o.repository.contains '/' = true → env.auth = true →
        env.getRepo o.repository = .ok () → env.getBranch o.base_branch = .ok sha →
        parse_files o.files = .error m → (handle env o).2 = 1) := by
  refine ⟨?_, splitFirst_sound ':', ?_⟩
  · intro s hne hbad
    have hps : parse_files (some s) =
        if s = [] then Except.ok [] else parseFilesAux [] (splitOnChar ',' s) := rfl
    rw [hps, if_neg hne]
    exact parseFilesAux_error_of_bad _ [] hbad
  · intro env o sha m hslash hauth hrepo hbase hpf
    simp only [handle, hrepo, hbase, hpf]
    rw [if_neg (by rw [hslash]; simp), if_neg (by rw [hauth]; simp)]

/-- Witness for C4 at `":remote"`, `"a:b:c"` and a run with files
`"noColon"`. -/
theorem c4_witness :
    (∃ m, parse_files (some (":remote".data)) = .error m)
    ∧ ("a:b:c".data = ("a".data) ++ ':' :: ("b:c".data) ∧ ':' ∉ ("a".data))
    ∧ (handle envOk optsBadFiles).2 = 1 := by
  refine ⟨c4_theorem.1 (":remote".data) (by decide) ⟨":remote".data, by decide, by decide⟩,
    c4_theorem.2.1 ("a:b:c".data) ("a".data) ("b:c".data) (by decide),
    c4_theorem.2.2 envOk optsBadFiles ("abc123".data) (invalidSpecMsg ("noColon".data))
      (by decide) rfl rfl rfl (by decide)⟩

/-- C5: when the run reaches head-branch creation and the creation call
fails, a `Reference already exists` error is treated as success — the run
continues and (when the rest succeeds) exits 0 — while any other creation
error aborts the whole run with exit 1 before the pull request is ever
attempted. -/
theorem c5_theorem (env : Env) (o : Options) (shaB sha e : Str) (files : Dict)
    (hslash : o.repository.contains '/' = true)
    (hauth : env.auth = true)
    (hrepo : env.getRepo o.repository = .ok ())
    (hbase : env.getBranch o.base_branch = .ok shaB)
    (hparse : parse_files o.files = .ok files)
    (hne : files ≠ [])
    (hdry : o.dry_run = false)
    (hmain : env.getBranch mainBranch = .ok sha)
    (href : env.createRef (refsHeads o.head_branch) sha = .error e) :
    (refAlreadyExists e = true →
      (∀ lp rp, (lp, rp) ∈ files → ∃ pth, validate_file_path env lp = .ok pth) →
      (∀ p c sh br, env.updateFile p c sh br = .ok ()) →
      (∀ p c br, env.createFile p c br = .ok ()) →
      ∀ url, env.createPull o.title o.body o.base_branch o.head_branch o.draft = .ok url →
        (handle env o).2 = 0)
    ∧ (refAlreadyExists e = false →
      (handle env o).2 = 1 ∧
      ∀ (t b bb hb : Str) (d : Bool),
        Call.createPull t b bb hb d ∉ (handle env o).1.calls) := by
  have heq : handle env o =
      upload_and_pr env o files (parse_list o.labels) (parse_list o.assignees)
        (parse_list o.reviewers)
        (addCall (addCall emptySt (.getRepo o.repository)) (.getBranch o.base_branch)) := by
    simp only [handle, hrepo, hbase, hparse, hdry, Bool.false_eq_true, reduceIte]
    rw [if_neg (by rw [hslash]; simp), if_neg (by rw [hauth]; simp)]
  have hupf : upload_files env o.head_branch files
      (addCall (addCall emptySt (.getRepo o.repository)) (.getBranch o.base_branch)) =
      (if refAlreadyExists e = true then
        uploadLoop env o.head_branch files
          (addCall (addCall (addCall (addCall emptySt (.getRepo o.repository))
            (.getBranch o.base_branch)) (.getBranch mainBranch))
            (.createRef (refsHeads o.head_branch) sha))
      else .error (addErr (addCall (addCall (addCall (addCall emptySt
          (.getRepo o.repository)) (.getBranch o.base_branch)) (.getBranch mainBranch))
          (.createRef (refsHeads o.head_branch) sha)) .error (failedUploadFilesMsg e),
        .ghExc e)) := by
    simp only [upload_files, hmain, href]
  constructor
  · intro hra hval hupd hcre url hpr
    obtain ⟨s', hs'⟩ := uploadLoop_ok_of_success env o.head_branch hupd hcre files
      (addCall (addCall (addCall (addCall emptySt (.getRepo o.repository))
        (.getBranch o.base_branch)) (.getBranch mainBranch))
        (.createRef (refsHeads o.head_branch) sha)) hval
    have hfin : handle env o = pull_request_stage env o (parse_list o.labels)
        (parse_list o.assignees) (parse_list o.reviewers) s' := by
      rw [heq]
      unfold upload_and_pr
      rw [if_pos hne, hupf, if_pos hra, hs']
    rw [hfin]
    exact (pull_request_stage_ok env o _ _ _ s' url hpr).1
  · intro hra
    have hra' : ¬ (refAlreadyExists e = true) := by rw [hra]; simp
    have hfin : handle env o =
        (addErr (addErr (addCall (addCall (addCall (addCall emptySt
          (.getRepo o.repository)) (.getBranch o.base_branch)) (.getBranch mainBranch))
          (.createRef (refsHeads o.head_branch) sha)) .error (failedUploadFilesMsg e))
          .error (unexpectedErrMsg e), 1) := by
      rw [heq]
      unfold upload_and_pr
      rw [if_pos hne, hupf, if_neg hra']
    rw [hfin]
    refine ⟨rfl, ?_⟩
    intro t b bb hb d hmem
    simp [addErr, addCall, emptySt] at hmem

/-- Witness for C5: with the reference-already-exists error the run exits
0; with another creation error it exits 1. -/
theorem c5_witness :
    (handle envRefExists optsFiles).2 = 0 ∧ (handle envRefBoom optsFiles).2 = 1 := by
  constructor
  · exact (c5_theorem envRefExists optsFiles ("abc123".data) ("abc123".data)
      ("422 Reference already exists".data) [("f1".data, "test.txt".data)]
      (by decide) rfl rfl rfl (by decide) (by decide) rfl rfl rfl).1 (by decide)
      (by intro lp rp h
          rw [List.mem_singleton, Prod.mk.injEq] at h
          obtain ⟨h1, h2⟩ := h
          subst h1
          exact ⟨"/w/f1".data, rfl⟩)
      (fun _ _ _ _ => rfl) (fun _ _ _ => rfl) ("http://pr/1".data) rfl
  · exact ((c5_theorem envRefBoom optsFiles ("abc123".data) ("abc123".data)
      ("500 boom".data) [("f1".data, "test.txt".data)]
      (by decide) rfl rfl rfl (by decide) (by decide) rfl rfl rfl).2 (by decide)).1

/-- C6: when the pull-request creation call was made and succeeded, the
command exits 0 and reports the pull request as created, and any
`GithubException` from the label, assignee or reviewer additions is only
reported as a warning on stderr. -/
theorem c6_theorem (env : Env) (o : Options) (t b bb hb : Str) (d : Bool) (url : Str)
    (hmem : Call.createPull t b bb hb d ∈ (handle env o).1.calls)
    (hok : env.createPull t b bb hb d = .ok url) :
    (handle env o).2 = 0 ∧ successMsg url ∈ (handle env o).1.out
    ∧ (∀ e, parse_list o.labels ≠ [] → env.addLabels (parse_list o.labels) = .error e →
        (Sev.warning, failedAddLabelsMsg e) ∈ (handle env o).1.err)
    ∧ (∀ e, parse_list o.assignees ≠ [] →
        env.addAssignees (parse_list o.assignees) = .error e →
        (Sev.warning, failedAddAssigneesMsg e) ∈ (handle env o).1.err)
    ∧ (∀ e, parse_list o.reviewers ≠ [] →
        env.addReviewers (parse_list o.reviewers) = .error e →
        (Sev.warning, failedAddReviewersMsg e) ∈ (handle env o).1.err) := by
  obtain ⟨⟨h1, h2, h3, h4, h5⟩, _, hokCase⟩ := handle_createPull_cases env o t b bb hb d hmem
  subst h1
  subst h2
  subst h3
  subst h4
  subst h5
  exact hokCase url hok

/-- Witness for C6: the label addition fails but the run exits 0, reports
the pull request and records the warning. -/
theorem c6_witness :
    (handle envLabelFail optsLabels).2 = 0
    ∧ successMsg ("http://pr/1".data) ∈ (handle envLabelFail optsLabels).1.out
    ∧ (Sev.warning, failedAddLabelsMsg ("404 label not found".data)) ∈
        (handle envLabelFail optsLabels).1.err := by
  obtain ⟨h1, h2, h3, _, _⟩ := c6_theorem envLabelFail optsLabels
    ("Test PR".data) ("Test description".data) ("main".data) ("feature/test".data)
    false ("http://pr/1".data) (by decide) rfl
  exact ⟨h1, h2, h3 ("404 label not found".data) (by decide) rfl⟩

/-- C7: when the pull-request creation call was made and raised a
`GithubException`, the command exits 1 and no label, assignee or reviewer
addition call appears in the trace. -/
theorem c7_theorem (env : Env) (o : Options) (t b bb hb : Str) (d : Bool) (e : Str)
    (hmem : Call.createPull t b bb hb d ∈ (handle env o).1.calls)
    (herr : env.createPull t b bb hb d = .error e) :
    (handle env o).2 = 1 ∧ ∀ c ∈ (handle env o).1.calls, isEnrichCall c = false := by
  obtain ⟨⟨h1, h2, h3, h4, h5⟩, herrCase, _⟩ := handle_createPull_cases env o t b bb hb d hmem
  subst h1
  subst h2
  subst h3
  subst h4
  subst h5
  exact herrCase e herr

/-- Witness for C7: with labels requested but pull-request creation
failing, the run exits 1. -/
theorem c7_witness : (handle envPrFail optsLabels).2 = 1 :=
  (c7_theorem envPrFail optsLabels ("Test PR".data) ("Test description".data)
    ("main".data) ("feature/test".data) false ("422 pull request exists".data)
    (by decide) rfl).1

/-- C8: with the dry-run flag set, the run never issues a mutating remote
call (no reference creation, no file create/update, no pull-request
creation, no enrichment), and whenever it exits 0 it has produced the
dry-run descriptive output. -/
theorem c8_theorem (env : Env) (o : Options) (hdry : o.dry_run = true) :
    (∀ c ∈ (handle env o).1.calls, isMutatingCall c = false)
    ∧ ((handle env o).2 = 0 →
        "DRY RUN - No changes will be made".data ∈ (handle env o).1.out) := by
  by_cases hslash : o.repository.contains '/' = false
  · constructor
    · intro c hc
      simp only [handle] at hc
      rw [if_pos hslash] at hc
      simp [addErr, emptySt] at hc
    · intro h0
      simp only [handle] at h0
      rw [if_pos hslash] at h0
      exact absurd h0 one_ne_zero
  · by_cases hauth : env.auth = false
    · constructor
      · intro c hc
        simp only [handle] at hc
        rw [if_neg hslash, if_pos hauth] at hc
        simp [addErr, emptySt] at hc
      · intro h0
        simp only [handle] at h0
        rw [if_neg hslash, if_pos hauth] at h0
        exact absurd h0 one_ne_zero
    · cases hrepo : env.getRepo o.repository with
      | error e =>
        constructor
        · intro c hc
          simp only [handle, hrepo] at hc
          rw [if_neg hslash, if_neg hauth] at hc
          simp [addErr, addCall, emptySt] at hc
          rw [hc]
          rfl
        · intro h0
          simp only [handle, hrepo] at h0
          rw [if_neg hslash, if_neg hauth] at h0
          exact absurd h0 one_ne_zero
      | ok u =>
        cases hbase : env.getBranch o.base_branch with
        | error e =>
          constructor
          · intro c hc
            simp only [handle, hrepo, hbase] at hc
            rw [if_neg hslash, if_neg hauth] at hc
            simp [addErr, addCall, emptySt] at hc
            rcases hc with hc | hc <;> rw [hc] <;> rfl
          · intro h0
            simp only [handle, hrepo, hbase] at h0
            rw [if_neg hslash, if_neg hauth] at h0
            exact absurd h0 one_ne_zero
        | ok shaB =>
          cases hpf : parse_files o.files with
          | error m =>
            constructor
            · intro c hc
              simp only [handle, hrepo, hbase, hpf] at hc
              rw [if_neg hslash, if_neg hauth] at hc
              simp [addErr, addCall, emptySt] at hc
              rcases hc with hc | hc <;> rw [hc] <;> rfl
            · intro h0
              simp only [handle, hrepo, hbase, hpf] at h0
              rw [if_neg hslash, if_neg hauth] at h0
              exact absurd h0 one_ne_zero
          | ok files =>
            have heq : handle env o =
                (show_dry_run env o files (parse_list o.labels) (parse_list o.assignees)
                  (parse_list o.reviewers)
                  (addCall (addCall emptySt (.getRepo o.repository))
                    (.getBranch o.base_branch)), 0) := by
              simp only [handle, hrepo, hbase, hpf, hdry, reduceIte]
              rw [if_neg hslash, if_neg hauth]
            constructor
            · intro c hc
              rw [heq, calls_show_dry_run] at hc
              simp [addCall, emptySt] at hc
              rcases hc with hc | hc <;> rw [hc] <;> rfl
            · intro _
              rw [heq]
              exact header_mem_out_show_dry_run env o files _ _ _ _

/-- Witness for C8: a dry run with files, labels and a non-default base
branch prints the dry-run header. -/
theorem c8_witness :
    "DRY RUN - No changes will be made".data ∈ (handle envOk optsDry).1.out :=
  (c8_theorem envOk optsDry rfl).2 (by decide)

theorem countP_le_one_of_nodup_keys (d : Dict) (k : Str)
    (h : (d.map Prod.fst).Nodup) :
    d.countP (fun pr => pr.1 == k) ≤ 1 := by
  induction d with
  | nil => simp
  | cons p rest ih =>
    rw [List.map_cons, List.nodup_cons] at h
    obtain ⟨hp, hr⟩ := h
    by_cases hpk : (p.1 == k) = true
    · have hk : p.1 = k := by simpa using hpk
      have hrest : rest.countP (fun pr => pr.1 == k) = 0 := by
        rw [List.countP_eq_zero]
        intro q hq
        have hqm : q.1 ∈ rest.map Prod.fst := List.mem_map.mpr ⟨q, hq, rfl⟩
        intro hc
        have hc' : q.1 = k := by simpa using hc
        exact hp (by rw [hk, ← hc']; exact hqm)
      rw [List.countP_cons]
      simp [hpk, hrest]
    · rw [List.countP_cons]
      simp only [hpk]
      simpa using ih hr

/-- C9: for well-formed input, the parsed mapping has pairwise-distinct
local paths (so at most one entry — and hence at most one upload — per
distinct local path), its size is the number of distinct local paths, and
each local path maps to the remote path of the last pair mentioning it. -/
theorem c9_theorem (s : Str) (d : Dict)
    (hwf : ∀ p ∈ splitOnChar ',' s, wfPair p = true)
    (hp : parse_files (some s) = .ok d) :
    (d.map Prod.fst).Nodup
    ∧ (∀ k, dictFind d k = dictFind (pairsOf s).reverse k)
    ∧ d.length = ((pairsOf s).map Prod.fst).toFinset.card
    ∧ (∀ k, d.countP (fun pr => pr.1 == k) ≤ 1) := by
  have h1 := parse_files_eq_of_wf s hwf
  rw [h1] at hp
  injection hp with hp
  subst hp
  have hnd : ((insertAll [] (pairsOf s)).map Prod.fst).Nodup :=
    nodup_map_fst_insertAll (pairsOf s) [] (by simp)
  refine ⟨hnd, ?_, ?_, ?_⟩
  · intro k
    rw [dictFind_insertAll]
    cases h : dictFind (pairsOf s).reverse k <;> simp [dictFind]
  · have hkeys : ((insertAll [] (pairsOf s)).map Prod.fst).toFinset =
        ((pairsOf s).map Prod.fst).toFinset := by
      rw [toFinset_map_fst_insertAll]
      simp
    calc (insertAll [] (pairsOf s)).length
        = ((insertAll [] (pairsOf s)).map Prod.fst).length := (List.length_map _ _).symm
      _ = ((insertAll [] (pairsOf s)).map Prod.fst).toFinset.card :=
          (List.toFinset_card_of_nodup hnd).symm
      _ = ((pairsOf s).map Prod.fst).toFinset.card := by rw [hkeys]
  · intro k
    exact countP_le_one_of_nodup_keys (insertAll [] (pairsOf s)) k hnd

/-- Witness for C9 at the concrete input `"a:1,b:2,a:3"`: the result keeps
one entry per local path, and `"a"` maps to the last remote `"3"`. -/
theorem c9_witness :
    (([("a".data, "3".data), ("b".data, "2".data)] : Dict).map Prod.fst).Nodup
    ∧ dictFind [("a".data, "3".data), ("b".data, "2".data)] ("a".data) =
        dictFind (pairsOf ("a:1,b:2,a:3".data)).reverse ("a".data) := by
  obtain ⟨h1, h2, _, _⟩ := c9_theorem ("a:1,b:2,a:3".data)
    [("a".data, "3".data), ("b".data, "2".data)] (by decide) (by decide)
  exact ⟨h1, h2 ("a".data)⟩

/-- C10: in dry-run output, every local file whose validation fails — for
any reason, including a path that exists but is a directory and a file over
the 100 MiB ceiling — is printed with the `(FILE NOT FOUND)` marker. -/
theorem c10_theorem (env : Env) (lp rp : Str) :
    (∀ m, validate_file_path env lp = .error m →
      dryRunFileLine env lp rp =
        "  ".data ++ lp ++ " -> ".data ++ rp ++ " (FILE NOT FOUND)".data)
    ∧ (∀ st : FStat, env.fs (resolvePath env lp) = some st → st.isFile = false →
      dryRunFileLine env lp rp =
        "  ".data ++ lp ++ " -> ".data ++ rp ++ " (FILE NOT FOUND)".data)
    ∧ (∀ st : FStat, env.fs (resolvePath env lp) = some st → st.isFile = true →
      st.size > maxFileSize →
      dryRunFileLine env lp rp =
        "  ".data ++ lp ++ " -> ".data ++ rp ++ " (FILE NOT FOUND)".data)
    ∧ (∀ (m : Str) (files : List (Str × Str)) (s : St),
        validate_file_path env lp = .error m → (lp, rp) ∈ files →
        ("  ".data ++ lp ++ " -> ".data ++ rp ++ " (FILE NOT FOUND)".data) ∈
          (dryRunFiles env files s).out) := by
  have hgen : ∀ m, validate_file_path env lp = .error m →
      dryRunFileLine env lp rp =
        "  ".data ++ lp ++ " -> ".data ++ rp ++ " (FILE NOT FOUND)".data := by
    intro m hm
    simp only [dryRunFileLine, hm]
  have hdir : ∀ st : FStat, env.fs (resolvePath env lp) = some st → st.isFile = false →
      ∃ m, validate_file_path env lp = .error m := by
    intro st hfs hnf
    exact ⟨notAFileMsg lp, by simp [validate_file_path, hfs, hnf]⟩
  have hbig : ∀ st : FStat, env.fs (resolvePath env lp) = some st → st.isFile = true →
      st.size > maxFileSize → ∃ m, validate_file_path env lp = .error m := by
    intro st hfs hf hsz
    exact ⟨tooLargeMsg lp st.size, by simp [validate_file_path, hfs, hf, hsz]⟩
  refine ⟨hgen, ?_, ?_, ?_⟩
  · intro st hfs hnf
    obtain ⟨m, hm⟩ := hdir st hfs hnf
    exact hgen m hm
  · intro st hfs hf hsz
    obtain ⟨m, hm⟩ := hbig st hfs hf hsz
    exact hgen m hm
  · intro m files
    induction files with
    | nil => intro s _ hmem; simp at hmem
    | cons pr rest ih =>
      intro s hm hmem
      obtain ⟨lp', rp'⟩ := pr
      rcases List.mem_cons.mp hmem with hpr | hpr
      · rw [Prod.mk.injEq] at hpr
        obtain ⟨h1, h2⟩ := hpr
        subst h1
        subst h2
        simp only [dryRunFiles, hm]
        apply mem_out_dryRunFiles
        simp [addOut, hgen m hm]
      · cases hv : validate_file_path env lp' with
        | ok path =>
          simp only [dryRunFiles, hv]
          exact ih _ hm hpr
        | error m' =>
          simp only [dryRunFiles, hv]
          exact ih _ hm hpr

/-- Witness for C10: a directory and an oversized file both print the
marker. -/
theorem c10_witness :
    dryRunFileLine envOk ("d".data) ("r".data) =
      "  ".data ++ "d".data ++ " -> ".data ++ "r".data ++ " (FILE NOT FOUND)".data
    ∧ dryRunFileLine envOk ("big".data) ("r".data) =
      "  ".data ++ "big".data ++ " -> ".data ++ "r".data ++ " (FILE NOT FOUND)".data :=
  ⟨(c10_theorem envOk ("d".data) ("r".data)).2.1 ⟨false, 0⟩ rfl rfl,
   (c10_theorem envOk ("big".data) ("r".data)).2.2.1 ⟨true, 104857601⟩ rfl rfl (by decide)⟩
